import Mathlib

/-!
# Verification of the OUI vendor-lookup cache (`core/oui_cache_system.py`)

This file is a shallow embedding, in Lean 4, of the OUI cache subsystem of the
repository: the registry parser (`OUICache._parse_oui_content`), the MAC
normalizer (`OUICache._extract_oui`), the staleness check
(`OUICache._needs_update`), the refresh orchestrator (`OUICache.update_cache`),
the store replacement (`OUICache._save_to_cache`), the lookup operations
(`OUICache.lookup_mac`, `OUICache.search_vendor`), and the slice of the SQLite
CRUD wrapper (`core/sqlite_manager.py`, class `SQLiteCRUD`) that these methods
drive.

Modelling conventions:
* Python strings are `String` / `List Char`; Python `None`-able values are
  `Option`; a Python exception that a method can raise is an `Except Unit`
  outcome, and a `try/except` block is a `match` on that outcome.
* The SQLite library itself is not part of the repository; it is modelled by
  `runQuery`, which gives semantics to exactly the SQL statements this code
  base emits and rejects (errors) everything else, mirroring sqlite3's
  behaviour on those statements (documented at `runQuery`).
* `datetime` timestamps are integer seconds (`Int`); `isoformat` /
  `fromisoformat` are modelled by decimal rendering/parsing of the seconds
  value, which preserves the round-trip and the possibility of an unparseable
  stored value.
* Network I/O (`OUICache._download_oui_file`) is an environment input
  (`Env.fetched`): `none` means all mirror URLs were exhausted, `some c` means
  the download succeeded with body `c`.  The number of download attempts and
  the number of executed SQL statements are tracked in `Sys` so that "no fetch
  attempted" / "no store query" properties are directly expressible.
-/

/-! ## Python string primitives (character level) -/

/-- Whitespace as recognized by Python's `str.strip()` and the regex class
`\s`, restricted to ASCII (the registry data and all inputs in the claims are
ASCII; Unicode whitespace is not modelled). -/
def pyIsWs (c : Char) : Bool :=
  c = ' ' ∨ c = '\t' ∨ c = '\n' ∨ c = '\r' ∨ c = '\x0b' ∨ c = '\x0c'

/-- Drop the maximal whitespace run at the head of a list of characters. -/
def dropWs : List Char → List Char
  | [] => []
  | c :: t => if pyIsWs c then dropWs t else c :: t

/-- Python `str.strip()` on a character list: remove leading and trailing
whitespace. -/
def pyStrip (l : List Char) : List Char :=
  (dropWs (dropWs l.reverse).reverse)

/-- Python `str.strip()` on a `String`. -/
def pyStripS (s : String) : String :=
  String.mk (pyStrip s.toList)

/-- Python `content.split('\n')`: cut a character list at every newline,
keeping empty pieces (so `split` of `""` is `[""]`). -/
def splitNl : List Char → List (List Char)
  | [] => [[]]
  | c :: t =>
    if c = '\n' then [] :: splitNl t
    else
      match splitNl t with
      | h :: r => (c :: h) :: r
      | [] => [[c]]

/-- An uppercase hexadecimal digit, the character class `[0-9A-F]` used by
both registry-line regexes and by the MAC validation regex (code points
48–57 are `0`–`9`, 65–70 are `A`–`F`). -/
def isHexUp (c : Char) : Bool :=
  (48 ≤ c.toNat ∧ c.toNat ≤ 57) ∨ (65 ≤ c.toNat ∧ c.toNat ≤ 70)

/-- A lowercase hexadecimal letter `a`–`f` (code points 97–102), the case the
parser's patterns do not accept. -/
def isLowerHex (c : Char) : Bool :=
  97 ≤ c.toNat ∧ c.toNat ≤ 102

/-- A hexadecimal digit of either case. -/
def isHexAny (c : Char) : Bool :=
  isHexUp c ∨ isLowerHex c

/-- Match a literal: if `pre` is a prefix of `l`, return the remainder. -/
def stripPre : List Char → List Char → Option (List Char)
  | [], l => some l
  | _ :: _, [] => none
  | a :: p, b :: l => if a = b then stripPre p l else none

/-! ## The two registry-line regexes

`_parse_oui_content` classifies each (already stripped) line with
`re.compile(r'^([0-9A-F]{2}-[0-9A-F]{2}-[0-9A-F]{2})\s*\(hex\)\s+(.+)$')` and
`re.compile(r'^([0-9A-F]{6})\s*\(base 16\)\s+(.+)$')`.

Both matchers below implement the regexes by maximal-munch on the whitespace
runs.  This agrees with the regex (which may backtrack inside `\s+(.+)$`) on
every line whose last character is not whitespace — an invariant that holds
for every line the parser tests, because the parser strips each line first. -/

/-- Match of the record-start pattern
`^([0-9A-F]{2}-[0-9A-F]{2}-[0-9A-F]{2})\s*\(hex\)\s+(.+)$` against a stripped
line, returning `(group 1, group 2)`. -/
def ouiMatchL (l : List Char) : Option (List Char × List Char) :=
  match l with
  | a :: b :: c :: d :: e :: f :: g :: h :: rest =>
    if isHexUp a ∧ isHexUp b ∧ c = '-' ∧ isHexUp d ∧ isHexUp e ∧ f = '-' ∧
       isHexUp g ∧ isHexUp h then
      match stripPre "(hex)".toList (dropWs rest) with
      | some r2 =>
        match r2 with
        | x :: t => if pyIsWs x ∧ dropWs t ≠ [] then
                      some ([a, b, c, d, e, f, g, h], dropWs t)
                    else none
        | [] => none
      | none => none
    else none
  | _ => none

/-- Match of the base-16 pattern
`^([0-9A-F]{6})\s*\(base 16\)\s+(.+)$` against a stripped line, returning
`(group 1, group 2)`. -/
def base16MatchL (l : List Char) : Option (List Char × List Char) :=
  match l with
  | a :: b :: c :: d :: e :: f :: rest =>
    if isHexUp a ∧ isHexUp b ∧ isHexUp c ∧ isHexUp d ∧ isHexUp e ∧ isHexUp f then
      match stripPre "(base 16)".toList (dropWs rest) with
      | some r2 =>
        match r2 with
        | x :: t => if pyIsWs x ∧ dropWs t ≠ [] then
                      some ([a, b, c, d, e, f], dropWs t)
                    else none
        | [] => none
      | none => none
    else none
  | _ => none

/-! ## Parser state machine -/

/-- The `current_record` dictionary built up by `_parse_oui_content` while a
record is open: its `oui`, `company_name`, `company_address` entries, and the
`oui_hex` entry which is only present once a base-16 line has been seen. -/
structure RawRec where
  oui : List Char
  company_name : List Char
  company_address : List Char
  oui_hex : Option (List Char)
deriving DecidableEq

/-- Loop state of `_parse_oui_content`: the open record (if any) and the
records already flushed, in order. -/
structure PState where
  cur : Option RawRec
  acc : List RawRec
deriving DecidableEq

/-- Flush an open record into the output list (`records.append`). -/
def flushOpt : Option RawRec → List RawRec
  | some r => [r]
  | none => []

/-- One iteration of the line loop of `_parse_oui_content`: strip the line,
skip blanks and `#` comments, then try the record-start pattern, then the
base-16 pattern, and otherwise append the line to the open record's address. -/
def stepLine (st : PState) (rawLine : List Char) : PState :=
  let line := pyStrip rawLine
  if line = [] then st
  else if line.head? = some '#' then st
  else
    match ouiMatchL line with
    | some g =>
      { cur := some { oui := g.1, company_name := pyStrip g.2,
                      company_address := [], oui_hex := none },
        acc := st.acc ++ flushOpt st.cur }
    | none =>
      match base16MatchL line with
      | some g =>
        match st.cur with
        | some r =>
          let nm := pyStrip g.2
          { st with cur := some { r with
              oui_hex := some g.1,
              company_name := if nm.length > r.company_name.length then nm
                              else r.company_name } }
        | none => st
      | none =>
        match st.cur with
        | some r =>
          { st with cur := some { r with
              company_address :=
                if r.company_address ≠ [] then r.company_address ++ ' ' :: line
                else line } }
        | none => st

/-- A parsed, cleaned vendor record: one row of the `oui_records` table. -/
structure OuiRow where
  oui : String
  oui_hex : String
  company_name : String
  company_address : String
deriving DecidableEq

/-- The cleanup pass at the end of `_parse_oui_content`: keep the record only
if `oui` and `company_name` are non-empty (Python truthiness), derive
`oui_hex` by deleting dashes when it is absent or empty, and truncate
`company_name` to 255 and `company_address` to 500 characters. -/
def cleanRec (r : RawRec) : Option OuiRow :=
  if r.oui ≠ [] ∧ r.company_name ≠ [] then
    let hx0 := match r.oui_hex with | some h => h | none => []
    let hx := if hx0 = [] then r.oui.filter (fun c => c ≠ '-') else hx0
    some { oui := String.mk r.oui, oui_hex := String.mk hx,
           company_name := String.mk (r.company_name.take 255),
           company_address := String.mk (r.company_address.take 500) }
  else none

/-- `OUICache._parse_oui_content`: split into lines, run the line state
machine, flush the final open record, and clean. -/
def OUICache.parse_oui_content (content : String) : List OuiRow :=
  let lines := splitNl content.toList
  let fin := lines.foldl stepLine { cur := none, acc := [] }
  (fin.acc ++ flushOpt fin.cur).filterMap cleanRec

/-! ## `OUICache._extract_oui` -/

/-- `OUICache._extract_oui`: strip and uppercase the input, delete the
separators `:`, `-`, `.`, require 6–12 uppercase hex digits
(`^[0-9A-F]{6,12}$`), and format the first six as `XX-XX-XX`. -/
def OUICache.extract_oui (mac : String) : Option String :=
  let cl := ((pyStrip mac.toList).map Char.toUpper).filter
              (fun c => ¬(c = ':' ∨ c = '-' ∨ c = '.'))
  if 6 ≤ cl.length ∧ cl.length ≤ 12 ∧ cl.all isHexUp then
    match cl with
    | a :: b :: c :: d :: e :: f :: _ =>
      some (String.mk [a, b, '-', c, d, '-', e, f])
    | _ => none
  else none

/-! ## SQL `LIKE` and ASCII case folding -/

/-- ASCII lowercase folding, the case folding SQLite's `LIKE` applies (SQLite
folds only the ASCII letters A–Z). -/
def lowerA (c : Char) : Char :=
  if 'A' ≤ c ∧ c ≤ 'Z' then Char.ofNat (c.toNat + 32) else c

/-- Does `f` accept some suffix of the string (including the string itself
and the empty suffix)? -/
def anySuffix (f : List Char → Bool) : List Char → Bool
  | [] => f []
  | c :: s' => f (c :: s') || anySuffix f s'

/-- SQLite `LIKE` pattern matching: `%` matches any sequence, `_` any single
character, other characters compare under ASCII case folding. -/
def likeMatch (p : List Char) (s : List Char) : Bool :=
  match p with
  | [] => s.isEmpty
  | a :: p' =>
    if a = '%' then anySuffix (likeMatch p') s
    else if a = '_' then
      match s with
      | [] => false
      | _ :: s' => likeMatch p' s'
    else
      match s with
      | [] => false
      | c :: s' => (lowerA a = lowerA c) && likeMatch p' s'

/-- `needle` is a prefix of `hay` (plain character equality). -/
def startsWithL (needle hay : List Char) : Bool :=
  match needle, hay with
  | [], _ => true
  | _ :: _, [] => false
  | a :: n, b :: h => a = b && startsWithL n h

/-- `needle` occurs as a contiguous segment of `hay`. -/
def strHasSub (needle hay : List Char) : Bool :=
  match hay with
  | [] => startsWithL needle []
  | _ :: h' => startsWithL needle hay || strHasSub needle h'

/-- Case-insensitive (ASCII) substring containment: `needle` occurs in `hay`
up to ASCII case.  This is the formalization of "vendor_name contains the
query substring under case-insensitive comparison". -/
def containsSubCI (needle hay : String) : Bool :=
  strHasSub (needle.toList.map lowerA) (hay.toList.map lowerA)

/-- A `LIKE` pattern fragment free of the wildcards `%` and `_`. -/
def wildcardFree (s : String) : Bool :=
  s.toList.all (fun c => ¬(c = '%' ∨ c = '_'))

/-! ## Database state and the SQLite statement model -/

/-- A Python value bound to a `?` placeholder: the code binds strings and one
integer (the `LIMIT` argument). -/
inductive PyVal where
  | vs : String → PyVal
  | vi : Int → PyVal
deriving DecidableEq

/-- State of the `oui_cache.db` database: the `oui_records` table (rows in
rowid order, i.e. insertion order), the `cache_metadata` key-value table, and
a flag modelling a hard storage-layer I/O failure (every statement on a
failing store raises `sqlite3.Error`). -/
structure DBState where
  oui_records : List OuiRow
  cache_metadata : List (String × String)
  ioError : Bool
deriving DecidableEq

/-- A result row as the sqlite3 row factory returns it: a vendor record row
(`SELECT *` on `oui_records`), the `COUNT(*) as count` row, or the
affected-rows marker returned for write statements. -/
inductive Row where
  | vrec : OuiRow → Row
  | meta : String → String → Row
  | cnt : Nat → Row
  | write : Row
deriving DecidableEq

/-- `row['value']`: defined on `cache_metadata` rows; on any other row shape
the Python dict access raises `KeyError` (`none` here). -/
def rowValue : Row → Option String
  | .meta _ v => some v
  | _ => none

/-- Look up a key in a key-value row list (first match). -/
def metaFind (m : List (String × String)) (k : String) : Option String :=
  (m.find? (fun kv => kv.1 = k)).map (fun kv => kv.2)

/-- Look up a key in the `cache_metadata` table. -/
def metaGet (db : DBState) (k : String) : Option String :=
  metaFind db.cache_metadata k

/-- `INSERT OR REPLACE` keyed on the `UNIQUE` column: drop any row with the
key, append the new row (SQLite deletes the conflicting row and inserts the
replacement at a fresh rowid). -/
def metaUpsert (m : List (String × String)) (k v : String) :
    List (String × String) :=
  m.filter (fun kv => kv.1 ≠ k) ++ [(k, v)]

/-- Insertion sort of vendor rows by `company_name` under the byte order of
`ORDER BY` with SQLite's BINARY collation (UTF-8 byte order coincides with the
code-point order of Lean's `String` order). -/
def insertByName (r : OuiRow) : List OuiRow → List OuiRow
  | [] => [r]
  | x :: xs =>
    if x.company_name ≤ r.company_name then x :: insertByName r xs
    else r :: x :: xs

/-- Sort vendor rows by `company_name` (model of `ORDER BY company_name`). -/
def sortByName (l : List OuiRow) : List OuiRow :=
  l.foldr insertByName []

/-- Model of one sqlite3 statement execution (`cursor.execute`) against the
cache database.  Semantics are given to exactly the statements
`core/oui_cache_system.py` emits:

* `DELETE FROM oui_records` — clears the table;
* `INSERT INTO oui_records (oui, oui_hex, company_name, company_address)
  VALUES (?, ?, ?, ?)` — appends a row, unless the `UNIQUE` constraint on
  `oui` is violated (then `sqlite3.IntegrityError`, an error outcome);
* `INSERT OR REPLACE INTO cache_metadata (key, value, updated_at)
  VALUES (?, ?, ?)` — upserts by the `UNIQUE` key;
* `SELECT COUNT(*) as count FROM oui_records`;
* `SELECT * FROM oui_records WHERE company_name LIKE ? ORDER BY company_name
  LIMIT ?` — filter by `LIKE`, sort by name, and cap at the limit; a negative
  `LIMIT` argument means no cap in SQLite.

Every other statement is an error.  In particular the two statement families
that `SQLiteCRUD.select` builds when `OUICache` passes it a WHERE condition in
the `columns` slot and a parameter tuple in the `where` slot fail to prepare,
as sqlite3 reports on the actual strings:

* `SELECT key = ? FROM cache_metadata WHERE ('last_update',)` —
  `OperationalError: near ")": syntax error` (trailing comma of the rendered
  1-tuple);
* `SELECT oui = ? OR oui_hex = ? FROM oui_records WHERE ('XX-XX-XX',
  'XXXXXX')` — `OperationalError: row value misused`.

A statement on a store in the I/O-failure state is an error, and a failed
statement has no effect (it is rolled back). -/
def runQuery (db : DBState) (q : String) (ps : List PyVal) :
    Except Unit (DBState × List Row) :=
  if db.ioError then .error ()
  else if q = "DELETE FROM oui_records" then
    .ok ({ db with oui_records := [] }, [.write])
  else if q = "INSERT INTO oui_records (oui, oui_hex, company_name, company_address) VALUES (?, ?, ?, ?)" then
    match ps with
    | [.vs o, .vs oh, .vs cn, .vs ca] =>
      if db.oui_records.any (fun r => r.oui = o) then .error ()
      else .ok ({ db with oui_records :=
                    db.oui_records ++ [⟨o, oh, cn, ca⟩] }, [.write])
    | _ => .error ()
  else if q = "INSERT OR REPLACE INTO cache_metadata (key, value, updated_at) VALUES (?, ?, ?)" then
    match ps with
    | [.vs k, .vs v, .vs _] =>
      .ok ({ db with cache_metadata := metaUpsert db.cache_metadata k v },
           [.write])
    | _ => .error ()
  else if q = "SELECT COUNT(*) as count FROM oui_records" then
    .ok (db, [.cnt db.oui_records.length])
  else if q = "SELECT * FROM oui_records WHERE company_name LIKE ? ORDER BY company_name LIMIT ?" then
    match ps with
    | [.vs pat, .vi lim] =>
      let hits := db.oui_records.filter
        (fun r => likeMatch pat.toList r.company_name.toList)
      let srt := sortByName hits
      .ok (db, (if lim < 0 then srt else srt.take lim.toNat).map Row.vrec)
    | _ => .error ()
  else .error ()

/-! ## The `SQLiteCRUD` wrapper and the system state -/

/-- System state threaded through the embedded methods: the database plus two
observation counters — how many times `_download_oui_file` was invoked
(network fetch attempts) and how many SQL statements were executed. -/
structure Sys where
  db : DBState
  fetches : Nat
  queries : Nat
deriving DecidableEq

/-- Environment of one call tree: the current wall-clock time
(`datetime.now()`, in seconds) and the outcome `_download_oui_file` would
produce if invoked (`none` = every mirror URL failed; the download loop's
internals are network I/O and are abstracted to this outcome). -/
structure Env where
  now : Int
  fetched : Option String
deriving DecidableEq

/-- `SQLiteCRUD.execute_query`: execute one statement; on `sqlite3.Error` the
wrapper logs, rolls back and re-raises (error outcome).  The statement counter
is incremented for every attempt. -/
def SQLiteCRUD.execute_query (sys : Sys) (q : String) (ps : List PyVal) :
    Except Unit (List Row) × Sys :=
  let sys' := { sys with queries := sys.queries + 1 }
  match runQuery sys'.db q ps with
  | .ok (db', rows) => (.ok rows, { sys' with db := db' })
  | .error _ => (.error (), sys')

/-- A value passed in one of `SQLiteCRUD.select`'s dynamically typed slots:
`OUICache` passes strings, parameter tuples, and `None`. -/
inductive PyArg where
  | astr : String → PyArg
  | atup : List PyVal → PyArg
  | anone : PyArg
deriving DecidableEq

/-- Python truthiness of a `PyArg` (`if where:` / `if params:`). -/
def PyArg.truthy : PyArg → Bool
  | .astr s => s ≠ ""
  | .atup xs => xs ≠ []
  | .anone => false

/-- Python `repr` of a bound value, as rendered inside `str()` of a tuple.
Exact for quote- and backslash-free strings, which covers every value the
code interpolates this way (metadata keys and OUI strings). -/
def pyReprVal : PyVal → String
  | .vs s => "'" ++ s ++ "'"
  | .vi n => toString n

/-- Python `str()` of a `PyArg`, as interpolated by the f-string building the
query (`f" WHERE {where}"`): a string renders as itself, a tuple with its
parentheses (and the trailing comma of a 1-tuple). -/
def PyArg.fmt : PyArg → String
  | .astr s => s
  | .atup [x] => "(" ++ pyReprVal x ++ ",)"
  | .atup xs => "(" ++ String.intercalate ", " (xs.map pyReprVal) ++ ")"
  | .anone => "None"

/-- The bound-parameter list `execute_query` receives from a `PyArg` in the
`params` slot (`None` means the statement is executed with no bindings). -/
def PyArg.toParams : PyArg → List PyVal
  | .atup xs => xs
  | _ => []

/-- `SQLiteCRUD.select`: builds
`SELECT {columns} FROM {table}` + optional ` WHERE {where}` and executes it,
returning `[]` when anything raises.  The parameters are in the source's
positional order — `OUICache` always calls this method as
`select(table, where_condition, params_tuple)`, so the WHERE condition lands
in `columns` and the parameter tuple is rendered into the WHERE clause. -/
def SQLiteCRUD.select (sys : Sys) (table : String) (columns : PyArg)
    (whereC : PyArg) (params : PyArg) : List Row × Sys :=
  let q := "SELECT " ++ columns.fmt ++ " FROM " ++ table
  let q := if whereC.truthy then q ++ " WHERE " ++ whereC.fmt else q
  match SQLiteCRUD.execute_query sys q params.toParams with
  | (.ok rows, sys') => (rows, sys')
  | (.error _, sys') => ([], sys')

/-- `SQLiteCRUD.insert`: builds the INSERT statement from the data
dictionary's keys (Python dicts preserve insertion order) and executes it; on
any failure it logs and returns `None` instead of raising.  The returned id is
not used by any caller in this code base and is modelled as `0`. -/
def SQLiteCRUD.insert (sys : Sys) (table : String)
    (data : List (String × PyVal)) : Option Int × Sys :=
  if data = [] then (none, sys)
  else
    let q := "INSERT INTO " ++ table ++ " (" ++
      String.intercalate ", " (data.map (fun kv => kv.1)) ++ ") VALUES (" ++
      String.intercalate ", " (data.map (fun _ => "?")) ++ ")"
    match SQLiteCRUD.execute_query sys q (data.map (fun kv => kv.2)) with
    | (.ok _, sys') => (some 0, sys')
    | (.error _, sys') => (none, sys')

/-- `SQLiteCRUD.count` (no WHERE clause, as called here): executes
`SELECT COUNT(*) as count FROM {table}`; a statement error propagates
(`count` has no exception handler of its own). -/
def SQLiteCRUD.count (sys : Sys) (table : String) : Except Unit Nat × Sys :=
  match SQLiteCRUD.execute_query sys ("SELECT COUNT(*) as count FROM " ++ table) [] with
  | (.ok rows, sys') =>
    (.ok (match rows with | .cnt n :: _ => n | _ => 0), sys')
  | (.error _, sys') => (.error (), sys')

/-! ## Timestamps

`datetime` is standard-library code.  It is modelled at integer-second
granularity: `isoformat` renders the seconds value, `fromisoformat` parses it
back and fails (raising `ValueError` in Python) on any non-numeric string.
The round-trip `fromisoformat (isoformat t) = some t` and the existence of
unparseable stored values — the two properties the cache logic depends on —
are preserved. -/

/-- Model of `datetime.isoformat` at second granularity. -/
def isoformat (t : Int) : String := toString t

/-- Accumulating decimal parser: fails on a non-digit. -/
def parseNatAux (acc : Nat) : List Char → Option Nat
  | [] => some acc
  | c :: t =>
    if '0' ≤ c ∧ c ≤ '9' then parseNatAux (acc * 10 + (c.toNat - 48)) t
    else none

/-- Parse a non-empty all-digit character list. -/
def parseNatL : List Char → Option Nat
  | [] => none
  | l => parseNatAux 0 l

/-- Model of `datetime.fromisoformat`; `none` is the `ValueError` outcome on
a value that is not a rendered timestamp. -/
def fromisoformat (s : String) : Option Int :=
  match s.toList with
  | '-' :: t => (parseNatL t).map (fun n => -(n : Int))
  | l => (parseNatL l).map (fun n => (n : Int))

/-- Seconds in `timedelta(days=7)`, the configured `cache_duration_days`. -/
def cacheDurationSecs : Int := 7 * 86400

/-! ## `OUICache` methods over the store -/

/-- `OUICache._needs_update`: read the `last_update` metadata through
`SQLiteCRUD.select` — called, as in the source, with the WHERE condition
`"key = ?"` in the positional `columns` slot and the tuple
`('last_update',)` in the positional `where` slot — then compare ages and
check the record count.  Any exception inside the body is caught and answered
with `True` (stale). -/
def OUICache.needs_update (env : Env) (sys : Sys) : Bool × Sys :=
  let r := SQLiteCRUD.select sys "cache_metadata" (.astr "key = ?")
             (.atup [.vs "last_update"]) .anone
  match r.1 with
  | [] => (true, r.2)
  | row :: _ =>
    match rowValue row with
    | none => (true, r.2)    -- `KeyError` on `result[0]['value']` → handler → True
    | some v =>
      match fromisoformat v with
      | none => (true, r.2)  -- `ValueError` from `fromisoformat` → handler → True
      | some lastUpdate =>
        if env.now - lastUpdate > cacheDurationSecs then (true, r.2)
        else
          match SQLiteCRUD.count r.2 "oui_records" with
          | (.ok c, s) => (decide (c = 0), s)
          | (.error _, s) => (true, s)  -- storage error → handler → True

/-- `OUICache._save_to_cache`: delete all vendor rows, insert the new records
one by one (`SQLiteCRUD.insert` swallows per-row failures, e.g. a `UNIQUE`
violation on `oui`, and the surrounding per-record `try/except` logs them),
then upsert the `last_update` and `total_records` metadata.  Errors of the
delete or of the metadata statements propagate (the outer handler logs and
re-raises). -/
def OUICache.save_to_cache (env : Env) (sys : Sys) (records : List OuiRow) :
    Except Unit Unit × Sys :=
  match SQLiteCRUD.execute_query sys "DELETE FROM oui_records" [] with
  | (.error e, sys') => (.error e, sys')
  | (.ok _, sys') =>
    let sys' := records.foldl
      (fun s r => (SQLiteCRUD.insert s "oui_records"
        [("oui", .vs r.oui), ("oui_hex", .vs r.oui_hex),
         ("company_name", .vs r.company_name),
         ("company_address", .vs r.company_address)]).2) sys'
    match SQLiteCRUD.execute_query sys'
        "INSERT OR REPLACE INTO cache_metadata (key, value, updated_at) VALUES (?, ?, ?)"
        [.vs "last_update", .vs (isoformat env.now), .vs (isoformat env.now)] with
    | (.error e, s) => (.error e, s)
    | (.ok _, s) =>
      match SQLiteCRUD.execute_query s
          "INSERT OR REPLACE INTO cache_metadata (key, value, updated_at) VALUES (?, ?, ?)"
          [.vs "total_records", .vs (toString records.length),
           .vs (isoformat env.now)] with
      | (.error e, s2) => (.error e, s2)
      | (.ok _, s2) => (.ok (), s2)

/-- `OUICache.update_cache`: skip if not forced and not stale; otherwise
download (one `_download_oui_file` attempt, counted in `Sys.fetches`), parse,
and save; `False` on any failure, with the whole body under `try/except`
returning `False`. -/
def OUICache.update_cache (env : Env) (sys : Sys) (force : Bool) : Bool × Sys :=
  let proceed : Bool × Sys :=
    if force then (true, sys)
    else
      let r := OUICache.needs_update env sys
      (r.1, r.2)
  match proceed with
  | (false, sys) => (false, sys)
  | (true, sys) =>
    let sys := { sys with fetches := sys.fetches + 1 }
    match env.fetched with
    | none => (false, sys)
    | some content =>
      let records := OUICache.parse_oui_content content
      if records = [] then (false, sys)
      else
        match OUICache.save_to_cache env sys records with
        | (.ok _, sys') => (true, sys')
        | (.error _, sys') => (false, sys')

/-- The dictionary `lookup_mac` returns on a hit. -/
structure VendorInfo where
  oui : String
  oui_hex : String
  vendor : String
  address : String
  mac_queried : String
deriving DecidableEq

/-- `OUICache.lookup_mac`: extract the OUI (returning `None` immediately on
invalid input), run a best-effort `update_cache()`, then query the store
through `SQLiteCRUD.select` — with, as in the source, the condition
`"oui = ? OR oui_hex = ?"` in the positional `columns` slot and the
two-element parameter tuple in the positional `where` slot.  Everything is
under a `try/except` returning `None`. -/
def OUICache.lookup_mac (env : Env) (sys : Sys) (mac : String) :
    Option VendorInfo × Sys :=
  match OUICache.extract_oui mac with
  | none => (none, sys)
  | some oui =>
    let sys := (OUICache.update_cache env sys false).2
    let r := SQLiteCRUD.select sys "oui_records"
      (.astr "oui = ? OR oui_hex = ?")
      (.atup [.vs (((oui.replace ":" "-").replace "." "-").toUpper),
              .vs ((((oui.replace ":" "").replace "-" "").replace "." "").toUpper)])
      .anone
    match r.1 with
    | [] => (none, r.2)
    | .vrec rr :: _ =>
      (some { oui := rr.oui, oui_hex := rr.oui_hex, vendor := rr.company_name,
              address := rr.company_address, mac_queried := mac }, r.2)
    | _ :: _ =>
      -- `record['oui']` on a row of another shape raises `KeyError`,
      -- caught by the handler.  Unreachable: the statement never yields rows.
      (none, r.2)

/-- The dictionary `search_vendor` returns per hit (no `mac_queried` key). -/
structure SearchInfo where
  oui : String
  oui_hex : String
  vendor : String
  address : String
deriving DecidableEq

/-- Build one `search_vendor` result dictionary from a row.  All rows of the
LIKE statement are vendor rows; the default branch stands for the `KeyError`
a row of another shape would raise (unreachable). -/
def rowToSearchInfo : Row → SearchInfo
  | .vrec rr => { oui := rr.oui, oui_hex := rr.oui_hex,
                  vendor := rr.company_name, address := rr.company_address }
  | _ => { oui := "", oui_hex := "", vendor := "", address := "" }

/-- `OUICache.search_vendor`: best-effort `update_cache()`, then the LIKE
query `SELECT * FROM oui_records WHERE company_name LIKE ? ORDER BY
company_name LIMIT ?` with the pattern `%name%` and the caller's limit;
everything under a `try/except` returning `[]`. -/
def OUICache.search_vendor (env : Env) (sys : Sys) (vendor_name : String)
    (limit : Int) : List SearchInfo × Sys :=
  let sys := (OUICache.update_cache env sys false).2
  match SQLiteCRUD.execute_query sys
      "SELECT * FROM oui_records WHERE company_name LIKE ? ORDER BY company_name LIMIT ?"
      [.vs ("%" ++ vendor_name ++ "%"), .vi limit] with
  | (.ok rows, sys') => (rows.map rowToSearchInfo, sys')
  | (.error _, sys') => ([], sys')

/-! ## Spec-side definitions used to state claims against the code -/

/-- The staleness rule as the spec states it: stale iff no `last_update` is
recorded, or it is unreadable, or its age strictly exceeds 7 days, or the
store is empty. -/
def specStale (now : Int) (db : DBState) : Bool :=
  match metaGet db "last_update" with
  | none => true
  | some v =>
    match fromisoformat v with
    | none => true
    | some lu => now - lu > cacheDurationSecs ∨ db.oui_records.length = 0

/-- The input normalization exactly as claim C6 words it: remove the
separators `:`, `-`, `.` and uppercase (no whitespace stripping). -/
def c6ClaimNorm (s : String) : List Char :=
  (s.toList.map Char.toUpper).filter (fun c => ¬(c = ':' ∨ c = '-' ∨ c = '.'))

/-- Claim C6's invalidity test on its own normalization: not a string of 6–12
hex digits. -/
def c6ClaimInvalid (s : String) : Bool :=
  ¬(6 ≤ (c6ClaimNorm s).length ∧ (c6ClaimNorm s).length ≤ 12 ∧
    (c6ClaimNorm s).all isHexUp)

/-- The normalization the code applies (`_extract_oui`): strip surrounding
whitespace, uppercase, remove the separators. -/
def c6CodeNorm (s : String) : List Char :=
  ((pyStrip s.toList).map Char.toUpper).filter
    (fun c => ¬(c = ':' ∨ c = '-' ∨ c = '.'))

/-- Invalidity after whitespace stripping — the amended form of claim C6's
hypothesis. -/
def c6CodeInvalid (s : String) : Bool :=
  ¬(6 ≤ (c6CodeNorm s).length ∧ (c6CodeNorm s).length ≤ 12 ∧
    (c6CodeNorm s).all isHexUp)

/-- The metadata read of `_needs_update` fails: the statement its
`SQLiteCRUD.select` call builds is an error. -/
def metaSelectErrors (db : DBState) : Bool :=
  match runQuery db "SELECT key = ? FROM cache_metadata WHERE ('last_update',)" [] with
  | .error _ => true
  | .ok _ => false

/-- Interpreting the metadata fails: a `last_update` value is recorded but is
not a parseable timestamp. -/
def metaInterpFails (db : DBState) : Bool :=
  match metaGet db "last_update" with
  | some v => fromisoformat v = none
  | none => false

/-! ## Behaviour of the misused metadata SELECT -/

/-- The statement `_needs_update`'s select call builds is rejected by SQLite
(syntax error at the rendered 1-tuple), on every database state. -/
theorem runQuery_meta_misuse (db : DBState) (ps : List PyVal) :
    runQuery db "SELECT key = ? FROM cache_metadata WHERE ('last_update',)" ps
    = .error () := by
  unfold runQuery
  by_cases h : db.ioError <;> simp [h]

/-- `SQLiteCRUD.select`, called the way `_needs_update` calls it, returns `[]`
on every state (the statement fails, `select` catches and returns `[]`). -/
theorem select_meta_misuse (sys : Sys) :
    SQLiteCRUD.select sys "cache_metadata" (.astr "key = ?")
      (.atup [.vs "last_update"]) .anone
    = ([], { sys with queries := sys.queries + 1 }) := by
  unfold SQLiteCRUD.select SQLiteCRUD.execute_query
  simp [PyArg.truthy, PyArg.fmt, pyReprVal, PyArg.toParams, runQuery_meta_misuse]

/-- `_needs_update` answers `True` on every state: its metadata read errors,
and the handler treats every error as "stale". -/
theorem needs_update_true (env : Env) (sys : Sys) :
    OUICache.needs_update env sys
    = (true, { sys with queries := sys.queries + 1 }) := by
  unfold OUICache.needs_update
  rw [select_meta_misuse]

/-! ## `update_cache` failure paths -/

/-- On a fetch failure or an empty parse, `update_cache` returns `False` and
leaves the database (vendor rows, metadata, everything) untouched. -/
theorem update_cache_fail (env : Env) (sys : Sys) (force : Bool)
    (h : ∀ c, env.fetched = some c → OUICache.parse_oui_content c = []) :
    (OUICache.update_cache env sys force).1 = false ∧
    (OUICache.update_cache env sys force).2.db = sys.db := by
  unfold OUICache.update_cache
  rw [needs_update_true]
  cases force <;> cases hf : env.fetched with
  | none => simp
  | some c => simp [h c hf]

/-! ## Storage-failure behaviour -/

/-- Every statement on a store in the I/O-failure state raises, and
`execute_query` re-raises. -/
theorem execute_query_ioErr (sys : Sys) (q : String) (ps : List PyVal)
    (h : sys.db.ioError = true) :
    SQLiteCRUD.execute_query sys q ps
    = (.error (), { sys with queries := sys.queries + 1 }) := by
  unfold SQLiteCRUD.execute_query runQuery
  simp [h]

/-- `SQLiteCRUD.select` maps a storage failure to `[]`. -/
theorem select_ioErr (sys : Sys) (table : String) (c w p : PyArg)
    (h : sys.db.ioError = true) :
    SQLiteCRUD.select sys table c w p
    = ([], { sys with queries := sys.queries + 1 }) := by
  unfold SQLiteCRUD.select
  simp [execute_query_ioErr, h]

/-- `_save_to_cache` on a failing store raises at the initial DELETE, with no
effect on the database. -/
theorem save_to_cache_ioErr (env : Env) (sys : Sys) (records : List OuiRow)
    (h : sys.db.ioError = true) :
    OUICache.save_to_cache env sys records
    = (.error (), { sys with queries := sys.queries + 1 }) := by
  unfold OUICache.save_to_cache
  rw [execute_query_ioErr sys _ _ h]

/-- `update_cache` on a failing store reports `False` and leaves the database
unchanged. -/
theorem update_cache_db_ioErr (env : Env) (sys : Sys) (force : Bool)
    (h : sys.db.ioError = true) :
    (OUICache.update_cache env sys force).1 = false ∧
    (OUICache.update_cache env sys force).2.db = sys.db := by
  unfold OUICache.update_cache
  rw [needs_update_true]
  cases force <;> cases hf : env.fetched <;>
    simp only [hf] <;> simp [save_to_cache_ioErr, h] <;>
    split <;> simp_all [save_to_cache_ioErr, h]

/-- `lookup_mac` answers `None` — the not-found value — on a failing store. -/
theorem lookup_mac_ioErr (env : Env) (sys : Sys) (mac : String)
    (h : sys.db.ioError = true) :
    (OUICache.lookup_mac env sys mac).1 = none := by
  unfold OUICache.lookup_mac
  cases hx : OUICache.extract_oui mac with
  | none => simp
  | some oui =>
    have hdb := (update_cache_db_ioErr env sys false h).2
    simp [select_ioErr, hdb, h]

/-- `search_vendor` answers `[]` — the no-match value — on a failing store. -/
theorem search_vendor_ioErr (env : Env) (sys : Sys) (q : String) (lim : Int)
    (h : sys.db.ioError = true) :
    (OUICache.search_vendor env sys q lim).1 = [] := by
  unfold OUICache.search_vendor
  have hdb := (update_cache_db_ioErr env sys false h).2
  simp [execute_query_ioErr, hdb, h]

/-- `_extract_oui` rejects exactly the inputs whose stripped normalization is
not 6–12 hex digits. -/
theorem extract_oui_none_of_invalid (mac : String)
    (h : c6CodeInvalid mac = true) : OUICache.extract_oui mac = none := by
  unfold OUICache.extract_oui
  unfold c6CodeInvalid c6CodeNorm at h
  simp only [decide_eq_true_eq] at h
  rw [if_neg]
  intro hc
  exact absurd hc h

/-- `lookup_mac` on an invalid address returns before touching anything. -/
theorem lookup_invalid (env : Env) (sys : Sys) (mac : String)
    (h : c6CodeInvalid mac = true) :
    OUICache.lookup_mac env sys mac = (none, sys) := by
  unfold OUICache.lookup_mac
  rw [extract_oui_none_of_invalid mac h]

/-! ## Concrete fixtures -/

/-- A stored vendor record used by the concrete instances. -/
def vmRow : OuiRow := ⟨"00-50-56", "005056", "VMware, Inc.", "Palo Alto CA"⟩

/-- Environment with the wall clock at 0 whose fetch attempt fails (all
mirror URLs exhausted). -/
def envNone : Env := { now := 0, fetched := none }

/-- A populated, healthy store refreshed 6 days ago (`last_update` is
`now − 6 days` for `envNone.now = 0`). -/
def dbPop : DBState :=
  { oui_records := [vmRow], cache_metadata := [("last_update", "-518400")],
    ioError := false }

/-- System state over `dbPop` with zeroed counters. -/
def sysPop : Sys := { db := dbPop, fetches := 0, queries := 0 }

/-- `sysPop` with the storage layer in the I/O-failure state. -/
def sysErr : Sys :=
  { db := { dbPop with ioError := true }, fetches := 0, queries := 0 }

/-- A store whose `last_update` metadata value is not a parseable
timestamp. -/
def sysGarbage : Sys :=
  { db := { oui_records := [vmRow],
            cache_metadata := [("last_update", "garbage")], ioError := false },
    fetches := 0, queries := 0 }

/-! ## Claim C1 -/

/-- C1: for every store and every `update_cache(force)` call, if the fetch
fails (all mirror URLs exhausted) or the parser extracts zero records from
the fetched text, the call returns failure (`False`) and leaves the
vendor-record table and the cache metadata exactly as they were — in
particular `count()` is unchanged, so a failed refresh never empties a
populated store. -/
theorem c1_failed_refresh_preserves_store (env : Env) (sys : Sys) (force : Bool)
    (h : ∀ c, env.fetched = some c → OUICache.parse_oui_content c = []) :
    (OUICache.update_cache env sys force).1 = false ∧
    (OUICache.update_cache env sys force).2.db = sys.db ∧
    (OUICache.update_cache env sys force).2.db.oui_records.length
      = sys.db.oui_records.length := by
  have hu := update_cache_fail env sys force h
  exact ⟨hu.1, hu.2, by rw [hu.2]⟩

/-- Witness for C1: a populated store, a forced refresh, and a failing
fetch — the call reports failure and the store is intact. -/
theorem c1_failed_refresh_preserves_store_witness :
    (∀ c, envNone.fetched = some c → OUICache.parse_oui_content c = []) ∧
    ((OUICache.update_cache envNone sysPop true).1 = false ∧
     (OUICache.update_cache envNone sysPop true).2.db = sysPop.db ∧
     (OUICache.update_cache envNone sysPop true).2.db.oui_records.length
       = sysPop.db.oui_records.length) :=
  And.intro (fun _ hc => nomatch hc)
    (c1_failed_refresh_preserves_store envNone sysPop true (fun _ hc => nomatch hc))

/-! ## Claim C4 -/

/-- C4 (divergence witness): with `last_update = now − 6 days` and a
non-empty store, the spec's staleness rule (`specStale`) says the cache is
fresh and no fetch should happen — but `update_cache(force=False)` attempts
a fetch anyway, because `_needs_update`'s metadata SELECT (built with the
WHERE condition in the `columns` argument and the parameter tuple rendered
into the WHERE clause) fails, and the error path reports "stale". -/
theorem c4_fresh_cache_still_fetched :
    specStale envNone.now sysPop.db = false ∧
    (OUICache.needs_update envNone sysPop).1 = true ∧
    (OUICache.update_cache envNone sysPop false).2.fetches
      = sysPop.fetches + 1 := by decide

/-! ## Claim C5 -/

/-- C5 (divergence witness): with the `00-50-56` record present in the
store, `lookup_mac` returns `None` for all three accepted address formats —
the three formats do agree, but none resolves to the stored record, because
the lookup SELECT (built with the condition in the `columns` argument and
the parameter tuple rendered as a WHERE row value) fails to prepare and
`select` maps that to no rows. -/
theorem c5_lookup_never_resolves :
    sysPop.db.oui_records = [vmRow] ∧
    (OUICache.lookup_mac envNone sysPop "00:50:56:12:34:56").1 = none ∧
    (OUICache.lookup_mac envNone sysPop "00-50-56-12-34-56").1 = none ∧
    (OUICache.lookup_mac envNone sysPop "005056123456").1 = none := by decide

/-! ## Claim C6 -/

/-- C6 (counterexample): `" 005056123456"` (leading space) fails the
claim's own normalization — removing `:`/`-`/`.` and uppercasing leaves a
non-hex string — so the claim requires an immediate `None` with no refresh;
but the code strips surrounding whitespace first, accepts the address form,
and attempts a fetch. -/
theorem c6_counter_whitespace_input_fetches :
    c6ClaimInvalid " 005056123456" = true ∧
    (OUICache.lookup_mac envNone sysPop " 005056123456").2.fetches
      = sysPop.fetches + 1 := by decide

/-- C6 (amended): for every input whose normalization — after stripping
surrounding whitespace, removing the separators `:`, `-`, `.` and
uppercasing — is not a string of 6–12 hex digits, `lookup_mac` returns
`None` immediately and leaves the system untouched: no fetch is attempted
and no SQL statement is executed. -/
theorem c6_invalid_input_rejected_without_refresh (env : Env) (sys : Sys)
    (mac : String) (h : c6CodeInvalid mac = true) :
    OUICache.lookup_mac env sys mac = (none, sys) ∧
    (OUICache.lookup_mac env sys mac).2.fetches = sys.fetches ∧
    (OUICache.lookup_mac env sys mac).2.queries = sys.queries := by
  have hl := lookup_invalid env sys mac h
  exact ⟨hl, by rw [hl], by rw [hl]⟩

/-- Witness for the amended C6: `"not-a-mac"` is rejected with no fetch and
no store query. -/
theorem c6_invalid_input_rejected_without_refresh_witness :
    c6CodeInvalid "not-a-mac" = true ∧
    (OUICache.lookup_mac envNone sysPop "not-a-mac" = (none, sysPop) ∧
     (OUICache.lookup_mac envNone sysPop "not-a-mac").2.fetches = sysPop.fetches ∧
     (OUICache.lookup_mac envNone sysPop "not-a-mac").2.queries = sysPop.queries) :=
  ⟨by decide,
   c6_invalid_input_rejected_without_refresh envNone sysPop "not-a-mac" (by decide)⟩

/-! ## Claim C7 -/

/-- C7 (counterexample): on a store in the I/O-failure state — and with the
failing record actually present — `search_vendor` returns `[]` and
`lookup_mac` returns `None`, the very values that mean "not found"; no
storage error reaches the caller, so the error is not distinguishable from a
normal miss. -/
theorem c7_counter_storage_error_swallowed :
    sysErr.db.ioError = true ∧
    sysErr.db.oui_records = [vmRow] ∧
    (OUICache.search_vendor envNone sysErr "VMware" 10).1 = [] ∧
    (OUICache.lookup_mac envNone sysErr "00:50:56:12:34:56").1 = none := by decide

/-- C7 (amended): storage errors during `lookup_mac` and `search_vendor` are
caught inside the operations and mapped to the not-found outcomes (`None`
and `[]` respectively); no error of any class propagates to the caller. -/
theorem c7_storage_errors_swallowed (env : Env) (sys : Sys) (mac q : String)
    (lim : Int) (h : sys.db.ioError = true) :
    (OUICache.lookup_mac env sys mac).1 = none ∧
    (OUICache.search_vendor env sys q lim).1 = [] :=
  ⟨lookup_mac_ioErr env sys mac h, search_vendor_ioErr env sys q lim h⟩

/-- Witness for the amended C7 at a concrete failing store. -/
theorem c7_storage_errors_swallowed_witness :
    sysErr.db.ioError = true ∧
    ((OUICache.lookup_mac envNone sysErr "00:50:56:12:34:56").1 = none ∧
     (OUICache.search_vendor envNone sysErr "VMware" 10).1 = []) :=
  ⟨by decide,
   c7_storage_errors_swallowed envNone sysErr "00:50:56:12:34:56" "VMware" 10
     (by decide)⟩

/-! ## Claim C10 -/

/-- C10: for every cache state in which reading the metadata fails (the
SELECT statement `_needs_update` builds errors) or interpreting it fails (a
stored `last_update` value that is not a parseable timestamp),
`_needs_update` answers `True` — every metadata failure is treated as
"stale, refresh needed" and never surfaces as an error. -/
theorem c10_metadata_failure_means_stale (env : Env) (sys : Sys)
    (_h : metaSelectErrors sys.db = true ∨ metaInterpFails sys.db = true) :
    (OUICache.needs_update env sys).1 = true := by
  rw [needs_update_true]

/-- Witness for C10: a store whose `last_update` value is unparseable (and
whose metadata SELECT indeed errors) is reported stale. -/
theorem c10_metadata_failure_means_stale_witness :
    (metaSelectErrors sysGarbage.db = true ∨ metaInterpFails sysGarbage.db = true) ∧
    (OUICache.needs_update envNone sysGarbage).1 = true :=
  ⟨Or.inr (by decide),
   c10_metadata_failure_means_stale envNone sysGarbage (Or.inr (by decide))⟩

/-! ## Claim C2: store replacement -/

/-- Filtering by a predicate every hit satisfies does not change `find?`. -/
theorem find?_filter_keep {α : Type} (p q : α → Bool) (l : List α)
    (h : ∀ x, p x = true → q x = true) :
    (l.filter q).find? p = l.find? p := by
  induction l with
  | nil => rfl
  | cons x xs ih =>
    by_cases hp : p x = true
    · have hq := h x hp
      simp [List.filter_cons, hq, List.find?_cons, hp]
    · have hp' : p x = false := by simpa using hp
      by_cases hq : q x = true
      · simp [List.filter_cons, hq, List.find?_cons, hp', ih]
      · have hq' : q x = false := by simpa using hq
        simp [List.filter_cons, hq', List.find?_cons, hp', ih]

/-- After an upsert, the upserted key maps to the new value. -/
theorem metaFind_upsert_same (m : List (String × String)) (k v : String) :
    metaFind (metaUpsert m k v) k = some v := by
  unfold metaFind metaUpsert
  rw [List.find?_append]
  have h1 : (m.filter (fun kv => kv.1 ≠ k)).find? (fun kv => kv.1 = k) = none := by
    rw [List.find?_eq_none]
    intro x hx
    have := List.of_mem_filter hx
    simpa using this
  simp [h1]

/-- An upsert leaves every other key's binding unchanged. -/
theorem metaFind_upsert_other (m : List (String × String)) (k v k' : String)
    (h : k' ≠ k) : metaFind (metaUpsert m k v) k' = metaFind m k' := by
  unfold metaFind metaUpsert
  rw [List.find?_append]
  have h2 : List.find? (fun kv => kv.1 = k') [(k, v)] = none := by
    rw [List.find?_eq_none]
    intro x hx
    simp at hx
    subst hx
    simp
    exact fun hc => h hc.symm
  have h3 : (m.filter (fun kv => kv.1 ≠ k)).find? (fun kv => kv.1 = k') =
      m.find? (fun kv => kv.1 = k') := by
    apply find?_filter_keep
    intro x hx
    simp at hx ⊢
    rw [hx]
    exact h
  rw [h2, h3]
  cases m.find? (fun kv => kv.1 = k') <;> rfl

/-- `DELETE FROM oui_records` on a healthy store clears the table. -/
theorem delete_all_ok (sys : Sys) (hio : sys.db.ioError = false) :
    SQLiteCRUD.execute_query sys "DELETE FROM oui_records" []
    = (.ok [.write], { sys with
        db := { sys.db with oui_records := [] },
        queries := sys.queries + 1 }) := by
  unfold SQLiteCRUD.execute_query runQuery
  simp [hio]

/-- The metadata upsert statement on a healthy store. -/
theorem meta_upsert_exec_ok (sys : Sys) (k v ts : String)
    (hio : sys.db.ioError = false) :
    SQLiteCRUD.execute_query sys
      "INSERT OR REPLACE INTO cache_metadata (key, value, updated_at) VALUES (?, ?, ?)"
      [.vs k, .vs v, .vs ts]
    = (.ok [.write], { sys with
        db := { sys.db with cache_metadata := metaUpsert sys.db.cache_metadata k v },
        queries := sys.queries + 1 }) := by
  unfold SQLiteCRUD.execute_query runQuery
  simp [hio]

/-- Inserting a record whose `oui` is not yet in the table appends it. -/
theorem insert_row_ok (sys : Sys) (r : OuiRow)
    (hio : sys.db.ioError = false)
    (hnew : sys.db.oui_records.all (fun x => x.oui ≠ r.oui) = true) :
    SQLiteCRUD.insert sys "oui_records"
      [("oui", .vs r.oui), ("oui_hex", .vs r.oui_hex),
       ("company_name", .vs r.company_name),
       ("company_address", .vs r.company_address)]
    = (some 0, { sys with
        db := { sys.db with oui_records := sys.db.oui_records ++ [r] },
        queries := sys.queries + 1 }) := by
  have hq : "INSERT INTO " ++ "oui_records" ++ " (" ++
      String.intercalate ", " ["oui", "oui_hex", "company_name", "company_address"] ++
      ") VALUES (" ++ String.intercalate ", " ["?", "?", "?", "?"] ++ ")"
      = "INSERT INTO oui_records (oui, oui_hex, company_name, company_address) VALUES (?, ?, ?, ?)" := by decide
  have hany : sys.db.oui_records.any (fun x => x.oui = r.oui) = false := by
    simp only [List.all_eq_true] at hnew
    simp only [List.any_eq_false]
    intro x hx
    simpa using hnew x hx
  unfold SQLiteCRUD.insert SQLiteCRUD.execute_query runQuery
  simp only [List.map_cons, List.map_nil, hq]
  simp [hio, hany]

/-- The per-record insertion loop of `_save_to_cache`, on records with
pairwise-distinct `oui` values, appends them all. -/
theorem fold_insert_ok (records : List OuiRow) (sys : Sys)
    (hio : sys.db.ioError = false)
    (hnd : (records.map (fun r => r.oui)).Nodup)
    (hdisj : ∀ r ∈ records,
      sys.db.oui_records.all (fun x => x.oui ≠ r.oui) = true) :
    records.foldl
      (fun s r => (SQLiteCRUD.insert s "oui_records"
        [("oui", .vs r.oui), ("oui_hex", .vs r.oui_hex),
         ("company_name", .vs r.company_name),
         ("company_address", .vs r.company_address)]).2) sys
    = { sys with
        db := { sys.db with oui_records := sys.db.oui_records ++ records },
        queries := sys.queries + records.length } := by
  induction records generalizing sys with
  | nil => simp
  | cons r rest ih =>
    rw [List.foldl_cons, insert_row_ok sys r hio (hdisj r (by simp))]
    rw [ih]
    · simp [List.append_assoc]
      omega
    · exact hio
    · simpa using hnd.of_cons
    · intro r' hr'
      simp only [List.all_eq_true]
      intro x hx
      simp only [List.mem_append, List.mem_singleton] at hx
      rcases hx with hx | hx
      · have := hdisj r' (by simp [hr'])
        simp only [List.all_eq_true] at this
        exact this x hx
      · subst hx
        simp only [List.map_cons, List.nodup_cons] at hnd
        simp
        intro hc
        exact hnd.1 (by rw [hc]; exact List.mem_map_of_mem _ hr')

/-- `_save_to_cache` on a healthy store and distinct-`oui` records: clears
the table, stores exactly the new records, and upserts both metadata keys. -/
theorem save_to_cache_ok (env : Env) (sys : Sys) (records : List OuiRow)
    (hio : sys.db.ioError = false)
    (hnd : (records.map (fun r => r.oui)).Nodup) :
    OUICache.save_to_cache env sys records
    = (.ok (), { sys with
        db := { sys.db with
          oui_records := records,
          cache_metadata := metaUpsert
            (metaUpsert sys.db.cache_metadata "last_update" (isoformat env.now))
            "total_records" (toString records.length) },
        queries := sys.queries + records.length + 3 }) := by
  unfold OUICache.save_to_cache
  rw [delete_all_ok sys hio]
  simp only []
  rw [fold_insert_ok records _ (by simpa using hio) hnd (by intro r _; simp)]
  rw [meta_upsert_exec_ok _ _ _ _ (by simpa using hio)]
  simp only []
  rw [meta_upsert_exec_ok _ _ _ _ (by simpa using hio)]
  simp only [List.nil_append]
  congr 1
  simp
  omega

/-- Success marker of a store replacement. -/
def exOk : Except Unit Unit → Bool
  | .ok _ => true
  | .error _ => false

/-- A second stored vendor record, distinct from `vmRow`. -/
def acmeRow : OuiRow := ⟨"00-00-03", "000003", "Acme", ""⟩

/-- Two parsed records carrying the same `oui`. -/
def dupRecs : List OuiRow :=
  [⟨"00-50-56", "005056", "First", ""⟩, ⟨"00-50-56", "005056", "Second", ""⟩]

/-- C2 (counterexample): `_save_to_cache` over a sequence of M = 2 parsed
records sharing one `oui` completes as a success, yet stores only 1 record —
the second insert violates the `UNIQUE` constraint and is skipped — while
still recording `total_records = 2`; so the replacement is not all-or-nothing
and `count()` can differ from M after a "successful" call. -/
theorem c2_counter_duplicate_partial_success :
    dupRecs.length = 2 ∧
    exOk (OUICache.save_to_cache envNone sysPop dupRecs).1 = true ∧
    (OUICache.save_to_cache envNone sysPop dupRecs).2.db.oui_records.length = 1 ∧
    metaGet (OUICache.save_to_cache envNone sysPop dupRecs).2.db "total_records"
      = some "2" := by decide

/-- C2 (amended): for every sequence of M parsed records with
pairwise-distinct prefixes, a successful `_save_to_cache` stores exactly the
new sequence: afterwards `count() = M`, every stored prefix comes from the
new sequence (so no record of the previous generation remains), and the
metadata rows are upserted with `last_update = now` and `total_records = M`.
Records repeating a prefix are silently skipped by the row-by-row insert, so
the replacement is not all-or-nothing in general. -/
theorem c2_replace_all_distinct (env : Env) (sys : Sys) (records : List OuiRow)
    (hio : sys.db.ioError = false)
    (hnd : (records.map (fun r => r.oui)).Nodup) :
    (OUICache.save_to_cache env sys records).1 = .ok () ∧
    (OUICache.save_to_cache env sys records).2.db.oui_records = records ∧
    (OUICache.save_to_cache env sys records).2.db.oui_records.length
      = records.length ∧
    (∀ p, p ∈ ((OUICache.save_to_cache env sys records).2.db.oui_records.map
        (fun r => r.oui)) → p ∈ records.map (fun r => r.oui)) ∧
    metaGet (OUICache.save_to_cache env sys records).2.db "last_update"
      = some (isoformat env.now) ∧
    metaGet (OUICache.save_to_cache env sys records).2.db "total_records"
      = some (toString records.length) := by
  rw [save_to_cache_ok env sys records hio hnd]
  refine ⟨rfl, rfl, rfl, fun p hp => hp, ?_, ?_⟩
  · unfold metaGet
    rw [metaFind_upsert_other _ _ _ _ (by decide), metaFind_upsert_same]
  · unfold metaGet
    rw [metaFind_upsert_same]

/-- Witness for the amended C2: replacing the populated store with two
distinct records stores exactly those two and updates the metadata. -/
theorem c2_replace_all_distinct_witness :
    (sysPop.db.ioError = false ∧ (([vmRow, acmeRow].map (fun r => r.oui)).Nodup)) ∧
    ((OUICache.save_to_cache envNone sysPop [vmRow, acmeRow]).1 = .ok () ∧
     (OUICache.save_to_cache envNone sysPop [vmRow, acmeRow]).2.db.oui_records
       = [vmRow, acmeRow] ∧
     (OUICache.save_to_cache envNone sysPop [vmRow, acmeRow]).2.db.oui_records.length
       = ([vmRow, acmeRow] : List OuiRow).length ∧
     (∀ p, p ∈ (((OUICache.save_to_cache envNone sysPop [vmRow, acmeRow]).2.db.oui_records.map
        (fun r => r.oui))) → p ∈ [vmRow, acmeRow].map (fun r => r.oui)) ∧
     metaGet (OUICache.save_to_cache envNone sysPop [vmRow, acmeRow]).2.db "last_update"
       = some (isoformat envNone.now) ∧
     metaGet (OUICache.save_to_cache envNone sysPop [vmRow, acmeRow]).2.db "total_records"
       = some (toString ([vmRow, acmeRow] : List OuiRow).length)) := by
  refine ⟨⟨by decide, by decide⟩, ?_⟩
  exact c2_replace_all_distinct envNone sysPop [vmRow, acmeRow] (by decide) (by decide)

/-! ## Claim C9: the patterns accept only uppercase hex digits -/

/-- The head of a stripped line is not whitespace (Bool form). -/
def headNotWs (l : List Char) : Bool :=
  match l.head? with
  | some x => !pyIsWs x
  | none => false

/-- The last character of a stripped line is not whitespace (Bool form). -/
def lastNotWs (l : List Char) : Bool :=
  match l.getLast? with
  | some x => !pyIsWs x
  | none => false

/-- `dropWs` is the identity on a list whose head is not whitespace. -/
theorem dropWs_id (l : List Char) (h : headNotWs l = true) : dropWs l = l := by
  cases l with
  | nil => simp [headNotWs] at h
  | cons c t =>
    simp [headNotWs, List.head?] at h
    simp [dropWs, h]

/-- `str.strip()` fixes a string whose two ends are not whitespace. -/
theorem pyStrip_id (l : List Char) (h1 : headNotWs l = true)
    (h2 : lastNotWs l = true) : pyStrip l = l := by
  unfold pyStrip
  have hr : headNotWs l.reverse = true := by
    unfold headNotWs
    unfold lastNotWs at h2
    rw [List.head?_reverse]
    exact h2
  rw [dropWs_id _ hr, List.reverse_reverse, dropWs_id _ h1]

/-- A lowercase hex letter is not an uppercase hex digit. -/
theorem lower_not_hexUp (c : Char) (h : isLowerHex c = true) :
    isHexUp c = false := by
  simp [isLowerHex] at h
  simp [isHexUp]
  omega

/-- Hex digits (either case) are not whitespace. -/
theorem not_ws_of_hexAny (c : Char) (h : isHexAny c = true) :
    pyIsWs c = false := by
  by_cases hw : pyIsWs c = true
  · simp [pyIsWs] at hw
    rcases hw with rfl | rfl | rfl | rfl | rfl | rfl <;>
      exact absurd h (by decide)
  · simpa using hw

/-- Hex digits are not the comment marker `#`. -/
theorem hexAny_ne_hash (c : Char) (h : isHexAny c = true) : c ≠ '#' := by
  intro hc
  subst hc
  exact absurd h (by decide)

/-- Trailing content keeps a non-whitespace last character. -/
theorem lastNotWs_append (l₁ l₂ : List Char) (h : lastNotWs l₂ = true) :
    lastNotWs (l₁ ++ l₂) = true := by
  unfold lastNotWs at h ⊢
  have hne : l₂ ≠ [] := by
    intro hc
    subst hc
    simp [List.getLast?] at h
  rw [List.getLast?_append_of_ne_nil l₁ hne]
  exact h

/-- An empty line is skipped by the parser loop. -/
theorem stepLine_blank (st : PState) : stepLine st [] = st := rfl

/-- A stripped, non-blank, non-comment line matching neither pattern is
address text: appended to the open record, ignored otherwise. -/
theorem stepLine_addr (st : PState) (line : List Char)
    (hs : pyStrip line = line) (hne : line ≠ [])
    (hh : line.head? ≠ some '#')
    (ho : ouiMatchL line = none) (hb : base16MatchL line = none) :
    stepLine st line
    = match st.cur with
      | some r => { st with cur := some { r with company_address :=
          if r.company_address ≠ [] then r.company_address ++ ' ' :: line
          else line } }
      | none => st := by
  unfold stepLine
  simp [hs, hne, hh, ho, hb]

/-- A stripped line matching the record-start pattern flushes the open record
and opens a new one. -/
theorem stepLine_hexline (st : PState) (line : List Char)
    (g : List Char × List Char)
    (hs : pyStrip line = line) (hne : line ≠ [])
    (hh : line.head? ≠ some '#')
    (ho : ouiMatchL line = some g) :
    stepLine st line
    = { cur := some { oui := g.1, company_name := pyStrip g.2,
                      company_address := [], oui_hex := none },
        acc := st.acc ++ flushOpt st.cur } := by
  unfold stepLine
  simp [hs, hne, hh, ho]

/-- A stripped line matching the base-16 pattern sets `oui_hex` and possibly
upgrades the name of the open record; without an open record it is skipped. -/
theorem stepLine_b16line (st : PState) (line : List Char)
    (g : List Char × List Char)
    (hs : pyStrip line = line) (hne : line ≠ [])
    (hh : line.head? ≠ some '#')
    (ho : ouiMatchL line = none) (hb : base16MatchL line = some g) :
    stepLine st line
    = match st.cur with
      | some r => { st with cur := some { r with
          oui_hex := some g.1,
          company_name := if (pyStrip g.2).length > r.company_name.length
                          then pyStrip g.2 else r.company_name } }
      | none => st := by
  unfold stepLine
  simp [hs, hne, hh, ho, hb]

/-- C9: the record-start and base-16 patterns accept only uppercase hex
digits.  For hex digits `a..f` of either case with at least one lowercase
letter among them and a well-formed trailing name: the dashed line
`ab-cd-ef (hex) name` and the compact line `abcdef (base 16) name` match
neither pattern; with a record open, the parser appends such a line to that
record's address text, and with no record open the line is ignored. -/
theorem c9_lowercase_hex_line_is_address_text
    (a b c d e f : Char) (name : List Char) (st : PState)
    (hhex : [a, b, c, d, e, f].all isHexAny = true)
    (hlow : [a, b, c, d, e, f].any isLowerHex = true)
    (hname : lastNotWs name = true) :
    (ouiMatchL (a :: b :: '-' :: c :: d :: '-' :: e :: f :: (" (hex) ".toList ++ name)) = none ∧
     base16MatchL (a :: b :: '-' :: c :: d :: '-' :: e :: f :: (" (hex) ".toList ++ name)) = none ∧
     ouiMatchL (a :: b :: c :: d :: e :: f :: (" (base 16) ".toList ++ name)) = none ∧
     base16MatchL (a :: b :: c :: d :: e :: f :: (" (base 16) ".toList ++ name)) = none) ∧
    (∀ r, st.cur = some r →
      stepLine st (a :: b :: '-' :: c :: d :: '-' :: e :: f :: (" (hex) ".toList ++ name))
        = { st with cur := some { r with company_address :=
            if r.company_address ≠ [] then
              r.company_address ++ ' ' :: (a :: b :: '-' :: c :: d :: '-' :: e :: f :: (" (hex) ".toList ++ name))
            else (a :: b :: '-' :: c :: d :: '-' :: e :: f :: (" (hex) ".toList ++ name)) } } ∧
      stepLine st (a :: b :: c :: d :: e :: f :: (" (base 16) ".toList ++ name))
        = { st with cur := some { r with company_address :=
            if r.company_address ≠ [] then
              r.company_address ++ ' ' :: (a :: b :: c :: d :: e :: f :: (" (base 16) ".toList ++ name))
            else (a :: b :: c :: d :: e :: f :: (" (base 16) ".toList ++ name)) } }) ∧
    (st.cur = none →
      stepLine st (a :: b :: '-' :: c :: d :: '-' :: e :: f :: (" (hex) ".toList ++ name)) = st ∧
      stepLine st (a :: b :: c :: d :: e :: f :: (" (base 16) ".toList ++ name)) = st) := by
  simp only [List.all_cons, List.all_nil, Bool.and_eq_true, and_true] at hhex
  obtain ⟨ha, hb, hc, hd, he, hf⟩ := hhex
  have hlistB : (" (base 16) ".toList : List Char)
      = [' ', '(', 'b', 'a', 's', 'e', ' ', '1', '6', ')', ' '] := rfl
  have h1 : ouiMatchL (a :: b :: '-' :: c :: d :: '-' :: e :: f :: (" (hex) ".toList ++ name)) = none := by
    simp only [ouiMatchL]
    rw [if_neg]
    rintro ⟨g1, g2, -, g3, g4, -, g5, g6⟩
    simp only [List.any_eq_true, List.mem_cons, List.not_mem_nil, or_false] at hlow
    obtain ⟨x, hx, hlx⟩ := hlow
    rcases hx with rfl | rfl | rfl | rfl | rfl | rfl
    · rw [lower_not_hexUp _ hlx] at g1; exact Bool.false_ne_true g1
    · rw [lower_not_hexUp _ hlx] at g2; exact Bool.false_ne_true g2
    · rw [lower_not_hexUp _ hlx] at g3; exact Bool.false_ne_true g3
    · rw [lower_not_hexUp _ hlx] at g4; exact Bool.false_ne_true g4
    · rw [lower_not_hexUp _ hlx] at g5; exact Bool.false_ne_true g5
    · rw [lower_not_hexUp _ hlx] at g6; exact Bool.false_ne_true g6
  have h2 : base16MatchL (a :: b :: '-' :: c :: d :: '-' :: e :: f :: (" (hex) ".toList ++ name)) = none := by
    simp only [base16MatchL]
    rw [if_neg]
    rintro ⟨-, -, g, -⟩
    exact absurd g (by decide)
  have h3 : ouiMatchL (a :: b :: c :: d :: e :: f :: (" (base 16) ".toList ++ name)) = none := by
    rw [hlistB]
    simp only [List.cons_append, List.nil_append]
    simp only [ouiMatchL]
    rw [if_neg]
    rintro ⟨-, -, -, -, -, -, g, -⟩
    exact absurd g (by decide)
  have h4 : base16MatchL (a :: b :: c :: d :: e :: f :: (" (base 16) ".toList ++ name)) = none := by
    simp only [base16MatchL]
    rw [if_neg]
    rintro ⟨g1, g2, g3, g4, g5, g6⟩
    simp only [List.any_eq_true, List.mem_cons, List.not_mem_nil, or_false] at hlow
    obtain ⟨x, hx, hlx⟩ := hlow
    rcases hx with rfl | rfl | rfl | rfl | rfl | rfl
    · rw [lower_not_hexUp _ hlx] at g1; exact Bool.false_ne_true g1
    · rw [lower_not_hexUp _ hlx] at g2; exact Bool.false_ne_true g2
    · rw [lower_not_hexUp _ hlx] at g3; exact Bool.false_ne_true g3
    · rw [lower_not_hexUp _ hlx] at g4; exact Bool.false_ne_true g4
    · rw [lower_not_hexUp _ hlx] at g5; exact Bool.false_ne_true g5
    · rw [lower_not_hexUp _ hlx] at g6; exact Bool.false_ne_true g6
  have hsH : pyStrip (a :: b :: '-' :: c :: d :: '-' :: e :: f :: (" (hex) ".toList ++ name))
      = (a :: b :: '-' :: c :: d :: '-' :: e :: f :: (" (hex) ".toList ++ name)) :=
    pyStrip_id _ (by simp [headNotWs, not_ws_of_hexAny a ha])
      (lastNotWs_append [a, b, '-', c, d, '-', e, f] (" (hex) ".toList ++ name)
        (lastNotWs_append " (hex) ".toList name hname))
  have hsB : pyStrip (a :: b :: c :: d :: e :: f :: (" (base 16) ".toList ++ name))
      = (a :: b :: c :: d :: e :: f :: (" (base 16) ".toList ++ name)) :=
    pyStrip_id _ (by simp [headNotWs, not_ws_of_hexAny a ha])
      (lastNotWs_append [a, b, c, d, e, f] (" (base 16) ".toList ++ name)
        (lastNotWs_append " (base 16) ".toList name hname))
  have hhashH : (a :: b :: '-' :: c :: d :: '-' :: e :: f :: (" (hex) ".toList ++ name)).head? ≠ some '#' := by
    simp [hexAny_ne_hash a ha]
  have hhashB : (a :: b :: c :: d :: e :: f :: (" (base 16) ".toList ++ name)).head? ≠ some '#' := by
    simp [hexAny_ne_hash a ha]
  refine ⟨⟨h1, h2, h3, h4⟩, ?_, ?_⟩
  · intro r hr
    constructor
    · rw [stepLine_addr st _ hsH (by simp) hhashH h1 h2, hr]
    · rw [stepLine_addr st _ hsB (by simp) hhashB h3 h4, hr]
  · intro hr
    constructor
    · rw [stepLine_addr st _ hsH (by simp) hhashH h1 h2, hr]
    · rw [stepLine_addr st _ hsB (by simp) hhashB h3 h4, hr]

/-- Parser state with no open record. -/
def stIdle : PState := { cur := none, acc := [] }

/-- Witness for C9 at the line `aa-bb-cc (hex) Vendor`: neither pattern
matches and, with no record open, the line is ignored. -/
theorem c9_lowercase_hex_line_is_address_text_witness :
    (['a', 'a', 'b', 'b', 'c', 'c'].all isHexAny = true ∧
     ['a', 'a', 'b', 'b', 'c', 'c'].any isLowerHex = true ∧
     lastNotWs "Vendor".toList = true) ∧
    (ouiMatchL ('a' :: 'a' :: '-' :: 'b' :: 'b' :: '-' :: 'c' :: 'c' ::
        (" (hex) ".toList ++ "Vendor".toList)) = none ∧
     stepLine stIdle ('a' :: 'a' :: '-' :: 'b' :: 'b' :: '-' :: 'c' :: 'c' ::
        (" (hex) ".toList ++ "Vendor".toList)) = stIdle) := by
  refine ⟨⟨by decide, by decide, by decide⟩, ?_⟩
  have h := c9_lowercase_hex_line_is_address_text 'a' 'a' 'b' 'b' 'c' 'c'
    "Vendor".toList stIdle (by decide) (by decide) (by decide)
  exact ⟨h.1.1, (h.2.2 rfl).1⟩

/-! ## Claim C8: vendor search -/

/-- An accepted suffix occurs at some offset. -/
theorem anySuffix_exists (f : List Char → Bool) (s : List Char)
    (h : anySuffix f s = true) : ∃ n, f (s.drop n) = true := by
  induction s with
  | nil => exact ⟨0, h⟩
  | cons c s' ih =>
    rw [anySuffix] at h
    rcases Bool.or_eq_true_iff.mp h with h1 | h1
    · exact ⟨0, h1⟩
    · obtain ⟨n, hn⟩ := ih h1
      exact ⟨n + 1, hn⟩

/-- A `%`-headed pattern matches iff the rest matches some suffix: here the
direction extracting the suffix. -/
theorem likeMatch_pct_drop (p : List Char) (s : List Char)
    (h : likeMatch ('%' :: p) s = true) :
    ∃ n, likeMatch p (s.drop n) = true := by
  have h' : anySuffix (likeMatch p) s = true := by simpa [likeMatch] using h
  exact anySuffix_exists _ _ h'

/-- A wildcard-free pattern followed by `%` matches exactly the strings it
starts (case-folded): here the forward direction. -/
theorem likeMatch_plain_starts (q : List Char)
    (hq : q.all (fun c => ¬(c = '%' ∨ c = '_')) = true) :
    ∀ s, likeMatch (q ++ ['%']) s = true →
      startsWithL (q.map lowerA) (s.map lowerA) = true := by
  induction q with
  | nil =>
    intro s _
    simp [startsWithL]
  | cons a q' ih =>
    intro s h
    simp only [List.all_cons, Bool.and_eq_true, decide_eq_true_eq] at hq
    have hna : a ≠ '%' := fun hc => hq.1 (Or.inl hc)
    have hnu : a ≠ '_' := fun hc => hq.1 (Or.inr hc)
    have hq' := hq.2
    cases s with
    | nil =>
      rw [List.cons_append, likeMatch.eq_def] at h
      simp only [] at h
      rw [if_neg hna, if_neg hnu] at h
      exact absurd h (by simp)
    | cons c s' =>
      rw [List.cons_append, likeMatch.eq_def] at h
      simp only [] at h
      rw [if_neg hna, if_neg hnu] at h
      rcases Bool.and_eq_true_iff.mp h with ⟨h1, h2⟩
      simp only [List.map_cons, startsWithL]
      rw [Bool.and_eq_true_iff]
      constructor
      · simpa using h1
      · exact ih (by simpa using hq') s' h2

/-- A match at some offset is a substring occurrence. -/
theorem strHasSub_of_starts (needle hay : List Char) (n : Nat)
    (h : startsWithL needle (hay.drop n) = true) :
    strHasSub needle hay = true := by
  induction hay generalizing n with
  | nil =>
    simp only [List.drop_nil] at h
    simpa [strHasSub]
  | cons c t ih =>
    cases n with
    | zero =>
      simp only [List.drop_zero] at h
      rw [strHasSub, Bool.or_eq_true_iff]
      exact Or.inl h
    | succ m =>
      simp only [List.drop_succ_cons] at h
      rw [strHasSub, Bool.or_eq_true_iff]
      exact Or.inr (ih m h)

/-- A hit of the LIKE pattern `%q%`, for wildcard-free `q`, contains `q` as a
case-insensitive substring. -/
theorem like_implies_containsCI (q s : List Char)
    (hq : q.all (fun c => ¬(c = '%' ∨ c = '_')) = true)
    (h : likeMatch ('%' :: (q ++ ['%'])) s = true) :
    strHasSub (q.map lowerA) (s.map lowerA) = true := by
  obtain ⟨n, hn⟩ := likeMatch_pct_drop _ _ h
  have hs := likeMatch_plain_starts q hq _ hn
  rw [List.map_drop] at hs
  exact strHasSub_of_starts _ _ n hs

/-- Membership in an insertion step. -/
theorem mem_insertByName (x r : OuiRow) (l : List OuiRow) :
    x ∈ insertByName r l ↔ x = r ∨ x ∈ l := by
  induction l with
  | nil => simp [insertByName]
  | cons y ys ih =>
    by_cases hc : y.company_name ≤ r.company_name
    · simp [insertByName, hc, ih]
      tauto
    · simp [insertByName, hc]

/-- Insertion preserves sortedness by name. -/
theorem pairwise_insertByName (r : OuiRow) (l : List OuiRow)
    (h : List.Pairwise (fun x y : OuiRow => x.company_name ≤ y.company_name) l) :
    List.Pairwise (fun x y : OuiRow => x.company_name ≤ y.company_name)
      (insertByName r l) := by
  induction l with
  | nil => simp [insertByName]
  | cons y ys ih =>
    rcases List.pairwise_cons.mp h with ⟨hy, hys⟩
    by_cases hc : y.company_name ≤ r.company_name
    · rw [insertByName]
      rw [if_pos hc]
      rw [List.pairwise_cons]
      constructor
      · intro z hz
        rcases (mem_insertByName z r ys).mp hz with rfl | hz'
        · exact hc
        · exact hy z hz'
      · exact ih hys
    · rw [insertByName]
      rw [if_neg hc]
      rw [List.pairwise_cons]
      constructor
      · intro z hz
        have hr : r.company_name ≤ y.company_name := le_of_not_le hc
        rcases List.mem_cons.mp hz with rfl | hz'
        · exact hr
        · exact le_trans hr (hy z hz')
      · exact h

/-- `sortByName` keeps exactly the input rows. -/
theorem mem_sortByName (x : OuiRow) (l : List OuiRow) :
    x ∈ sortByName l ↔ x ∈ l := by
  induction l with
  | nil => simp [sortByName]
  | cons y ys ih =>
    rw [sortByName, List.foldr_cons]
    rw [mem_insertByName]
    rw [sortByName] at ih
    rw [ih]
    simp

/-- `sortByName` sorts by `company_name`. -/
theorem sorted_sortByName (l : List OuiRow) :
    List.Pairwise (fun x y : OuiRow => x.company_name ≤ y.company_name)
      (sortByName l) := by
  induction l with
  | nil => simp [sortByName]
  | cons y ys ih =>
    rw [sortByName, List.foldr_cons]
    exact pairwise_insertByName y _ ih

/-- The LIKE statement on a healthy store: filter, sort, cap (no cap for a
negative limit). -/
theorem search_query_ok (sys : Sys) (pat : String) (lim : Int)
    (hio : sys.db.ioError = false) :
    SQLiteCRUD.execute_query sys
      "SELECT * FROM oui_records WHERE company_name LIKE ? ORDER BY company_name LIMIT ?"
      [.vs pat, .vi lim]
    = (.ok ((if lim < 0 then
          sortByName (sys.db.oui_records.filter
            (fun r => likeMatch pat.toList r.company_name.toList))
        else
          (sortByName (sys.db.oui_records.filter
            (fun r => likeMatch pat.toList r.company_name.toList))).take lim.toNat).map Row.vrec),
       { sys with queries := sys.queries + 1 }) := by
  unfold SQLiteCRUD.execute_query runQuery
  simp [hio]

/-- The characters of the interpolated pattern `%q%`. -/
theorem pat_toList (q : String) :
    ("%" ++ q ++ "%").toList = '%' :: (q.toList ++ ['%']) := by
  show (("%" ++ q ++ "%").data) = '%' :: (q.data ++ ['%'])
  simp [String.data_append]

/-- C8 (amended): for every wildcard-free query and every non-negative
limit, `search_vendor` returns only records of the current store (the store
as left by its best-effort refresh) whose `vendor_name` contains the query
as a case-insensitive substring, in non-decreasing name order, and at most
`limit` of them.  A query containing `%` or `_` is interpreted as LIKE
wildcards, and a negative limit imposes no cap. -/
theorem c8_search_contains_sorted_limited (env : Env) (sys : Sys) (q : String)
    (lim : Int) (hq : wildcardFree q = true) (hlim : 0 ≤ lim) :
    (∀ v ∈ (OUICache.search_vendor env sys q lim).1,
      ∃ r, r ∈ ((OUICache.update_cache env sys false).2).db.oui_records ∧
        v = rowToSearchInfo (Row.vrec r) ∧
        containsSubCI q r.company_name = true) ∧
    List.Pairwise (fun x y : SearchInfo => x.vendor ≤ y.vendor)
      (OUICache.search_vendor env sys q lim).1 ∧
    (OUICache.search_vendor env sys q lim).1.length ≤ lim.toNat := by
  simp only [OUICache.search_vendor]
  by_cases hio : ((OUICache.update_cache env sys false).2).db.ioError = true
  · rw [execute_query_ioErr _ _ _ hio]
    simp
  · have hio' : ((OUICache.update_cache env sys false).2).db.ioError = false := by
      simpa using hio
    rw [search_query_ok _ _ _ hio']
    rw [if_neg (by omega)]
    simp only []
    refine ⟨?_, ?_, ?_⟩
    · intro v hv
      simp only [List.map_map, List.mem_map, Function.comp] at hv
      obtain ⟨r, hr, rfl⟩ := hv
      have hr1 : r ∈ sortByName (((OUICache.update_cache env sys false).2).db.oui_records.filter
          (fun rr => likeMatch ("%" ++ q ++ "%").toList rr.company_name.toList)) :=
        List.mem_of_mem_take hr
      rw [mem_sortByName] at hr1
      rw [List.mem_filter] at hr1
      refine ⟨r, hr1.1, rfl, ?_⟩
      have hl := hr1.2
      rw [pat_toList] at hl
      unfold wildcardFree at hq
      exact like_implies_containsCI q.toList r.company_name.toList hq hl
    · have hsorted := sorted_sortByName (((OUICache.update_cache env sys false).2).db.oui_records.filter
        (fun rr => likeMatch ("%" ++ q ++ "%").toList rr.company_name.toList))
      have htake := hsorted.sublist (List.take_sublist lim.toNat _)
      simp only [List.map_map]
      apply List.Pairwise.map
      intro a b hab
      exact hab
      exact htake
    · simp only [List.map_map, List.length_map, List.length_take]
      omega

/-- A store holding the single vendor name `aXb`. -/
def sysLike : Sys :=
  { db := { oui_records := [⟨"00-00-01", "000001", "aXb", ""⟩],
            cache_metadata := [], ioError := false },
    fetches := 0, queries := 0 }

/-- C8 (counterexample): searching `"a%b"` with `limit = -1` returns the
record `aXb` — whose name does not contain the substring `a%b` (the `%` acts
as a LIKE wildcard) — and returns more results than the limit allows (SQLite
treats a negative LIMIT as no cap), so both the substring clause and the
at-most-limit clause of the claim fail as stated. -/
theorem c8_counter_wildcard_negative_limit :
    (OUICache.search_vendor envNone sysLike "a%b" (-1)).1
      = [{ oui := "00-00-01", oui_hex := "000001", vendor := "aXb", address := "" }] ∧
    containsSubCI "a%b" "aXb" = false ∧
    ((OUICache.search_vendor envNone sysLike "a%b" (-1)).1.length : Int) > (-1) := by
  decide

/-- A store with the vendors `Zebra Corp`, `Apple Inc`, `Acme`. -/
def sysAlpha : Sys :=
  { db := { oui_records := [⟨"00-00-01", "000001", "Zebra Corp", ""⟩,
              ⟨"00-00-02", "000002", "Apple Inc", ""⟩,
              ⟨"00-00-03", "000003", "Acme", ""⟩],
            cache_metadata := [], ioError := false },
    fetches := 0, queries := 0 }

/-- Witness for the amended C8: searching `"a"` with `limit = 2` over the
Zebra/Apple/Acme store. -/
theorem c8_search_contains_sorted_limited_witness :
    (wildcardFree "a" = true ∧ (0 : Int) ≤ 2) ∧
    ((∀ v ∈ (OUICache.search_vendor envNone sysAlpha "a" 2).1,
      ∃ r, r ∈ ((OUICache.update_cache envNone sysAlpha false).2).db.oui_records ∧
        v = rowToSearchInfo (Row.vrec r) ∧
        containsSubCI "a" r.company_name = true) ∧
     List.Pairwise (fun x y : SearchInfo => x.vendor ≤ y.vendor)
       (OUICache.search_vendor envNone sysAlpha "a" 2).1 ∧
     (OUICache.search_vendor envNone sysAlpha "a" 2).1.length ≤ (2 : Int).toNat) :=
  ⟨⟨by decide, by decide⟩,
   c8_search_contains_sorted_limited envNone sysAlpha "a" 2 (by decide) (by decide)⟩

/-! ## Claim C3: parser round-trip over well-formed registry blocks -/

/-- Six hex digits of one OUI, as individual characters. -/
structure Hex6 where
  a : Char
  b : Char
  c : Char
  d : Char
  e : Char
  f : Char
deriving DecidableEq

/-- The dashed rendering `XX-XX-XX` used on `(hex)` lines. -/
def Hex6.dashed (h : Hex6) : List Char := [h.a, h.b, '-', h.c, h.d, '-', h.e, h.f]

/-- The compact rendering `XXXXXX` used on `(base 16)` lines. -/
def Hex6.compact (h : Hex6) : List Char := [h.a, h.b, h.c, h.d, h.e, h.f]

/-- All six characters are uppercase hex digits. -/
def Hex6.good (h : Hex6) : Bool := [h.a, h.b, h.c, h.d, h.e, h.f].all isHexUp

/-- The line holds no newline (so the rendering splits back into lines). -/
def noNl (l : List Char) : Bool := l.all (fun c => ¬(c = '\n'))

/-- A well-formed name or address fragment: non-empty, no surrounding
whitespace, no newline. -/
def goodText (n : List Char) : Bool := headNotWs n && lastNotWs n && noNl n

/-- A well-formed address continuation line: well-formed text that is not a
comment and matches neither registry pattern. -/
def isAddrText (l : List Char) : Bool :=
  goodText l && decide (l.head? ≠ some '#') &&
  (ouiMatchL l).isNone && (base16MatchL l).isNone

/-- One well-formed registry block: the hex line's digits and name, an
optional base-16 line (digits and name), and address continuation lines. -/
structure OuiBlock where
  hx : Hex6
  hexName : List Char
  b16 : Option (Hex6 × List Char)
  addr : List (List Char)
deriving DecidableEq

/-- Well-formedness of a block (decidable). -/
def OuiBlock.good (b : OuiBlock) : Bool :=
  b.hx.good && goodText b.hexName &&
  (match b.b16 with
   | none => true
   | some (h6, nm) => h6.good && goodText nm) &&
  b.addr.all isAddrText

/-- The lines of one rendered block. -/
def renderBlock (b : OuiBlock) : List (List Char) :=
  (b.hx.dashed ++ " (hex) ".toList ++ b.hexName) ::
  ((match b.b16 with
    | none => []
    | some (h6, nm) => [h6.compact ++ " (base 16) ".toList ++ nm]) ++ b.addr)

/-- All lines of a rendered registry, blocks separated by one blank line. -/
def linesOf : List OuiBlock → List (List Char)
  | [] => []
  | [b] => renderBlock b
  | b :: bs => renderBlock b ++ ([] :: linesOf bs)

/-- Join lines with newlines (inverse of `splitNl` on newline-free lines). -/
def joinNl : List (List Char) → List Char
  | [] => []
  | [l] => l
  | l :: ls => l ++ '\n' :: joinNl ls

/-- The synthetic registry text of a block list. -/
def renderRegistry (blocks : List OuiBlock) : String :=
  String.mk (joinNl (linesOf blocks))

/-- Space-join of the address continuation lines. -/
def spaceJoin : List (List Char) → List Char
  | [] => []
  | [l] => l
  | l :: ls => l ++ ' ' :: spaceJoin ls

/-- The raw record the line loop accumulates for one block: `oui` from the
hex line, the longer of the two names, the space-joined address, and
`oui_hex` present exactly when a base-16 line is. -/
def rawOf (b : OuiBlock) : RawRec :=
  { oui := b.hx.dashed,
    company_name := match b.b16 with
      | none => b.hexName
      | some (_, nm) => if nm.length > b.hexName.length then nm else b.hexName,
    company_address := spaceJoin b.addr,
    oui_hex := b.b16.map (fun p => p.1.compact) }

/-- The cleaned record the parser outputs for one block: `prefix` from the
hex line; `prefix_hex` from the base-16 line, or derived by stripping dashes
when that line is absent; the vendor name preferring the strictly longer
base-16 name, truncated to 255; the space-joined address truncated to 500. -/
def blockRecord (b : OuiBlock) : OuiRow :=
  { oui := String.mk b.hx.dashed,
    oui_hex := String.mk (match b.b16 with
      | none => b.hx.dashed.filter (fun c => c ≠ '-')
      | some (h6, _) => h6.compact),
    company_name := String.mk ((match b.b16 with
      | none => b.hexName
      | some (_, nm) => if nm.length > b.hexName.length then nm
                        else b.hexName).take 255),
    company_address := String.mk ((spaceJoin b.addr).take 500) }

theorem splitNl_no_nl (l : List Char) (h : noNl l = true) : splitNl l = [l] := by
  induction l with
  | nil => rfl
  | cons c t ih =>
    simp only [noNl, List.all_cons, Bool.and_eq_true, decide_eq_true_eq] at h
    rw [splitNl]
    rw [if_neg h.1]
    rw [ih h.2]

theorem splitNl_append_nl (l rest : List Char) (h : noNl l = true) :
    splitNl (l ++ '\n' :: rest) = l :: splitNl rest := by
  induction l with
  | nil =>
    simp only [List.nil_append]
    rw [splitNl]
    rw [if_pos rfl]
  | cons c t ih =>
    simp only [noNl, List.all_cons, Bool.and_eq_true, decide_eq_true_eq] at h
    simp only [List.cons_append]
    rw [splitNl]
    rw [if_neg h.1]
    rw [ih h.2]

theorem splitNl_joinNl (ls : List (List Char)) (hne : ls ≠ [])
    (h : ∀ l ∈ ls, noNl l = true) : splitNl (joinNl ls) = ls := by
  induction ls with
  | nil => exact absurd rfl hne
  | cons l ls' ih =>
    cases ls' with
    | nil =>
      rw [joinNl]
      exact splitNl_no_nl l (h l (by simp))
    | cons l2 ls2 =>
      rw [joinNl]
      rw [splitNl_append_nl l _ (h l (by simp))]
      rw [ih (fun hc => List.noConfusion hc) (fun x hx => h x (by simp [hx]))]
      exact fun hc => List.noConfusion hc

theorem headNotWs_ne_nil (l : List Char) (h : headNotWs l = true) : l ≠ [] := by
  cases l with
  | nil => simp [headNotWs] at h
  | cons c t => simp

theorem goodText_dropWs (n : List Char) (h : goodText n = true) :
    dropWs n = n := by
  simp only [goodText, Bool.and_eq_true] at h
  exact dropWs_id n h.1.1

theorem goodText_ne_nil (n : List Char) (h : goodText n = true) : n ≠ [] := by
  simp only [goodText, Bool.and_eq_true] at h
  exact headNotWs_ne_nil n h.1.1

theorem ouiMatch_renderHex (h6 : Hex6) (nm : List Char)
    (hh : h6.good = true) (hn : goodText nm = true) :
    ouiMatchL (h6.dashed ++ " (hex) ".toList ++ nm) = some (h6.dashed, nm) := by
  have hx : [h6.a, h6.b, h6.c, h6.d, h6.e, h6.f].all isHexUp = true := hh
  simp only [List.all_cons, List.all_nil, Bool.and_eq_true, and_true] at hx
  obtain ⟨ha, hb, hc, hd, he, hf⟩ := hx
  show ouiMatchL (h6.a :: h6.b :: '-' :: h6.c :: h6.d :: '-' :: h6.e :: h6.f ::
    (' ' :: '(' :: 'h' :: 'e' :: 'x' :: ')' :: ' ' :: nm)) = some (h6.dashed, nm)
  simp only [ouiMatchL]
  rw [if_pos ⟨ha, hb, trivial, hc, hd, trivial, he, hf⟩]
  have hd1 : dropWs (' ' :: '(' :: 'h' :: 'e' :: 'x' :: ')' :: ' ' :: nm)
      = '(' :: 'h' :: 'e' :: 'x' :: ')' :: ' ' :: nm := by
    rw [dropWs]
    rw [if_pos (by decide)]
    rw [dropWs]
    rw [if_neg (by decide)]
  rw [hd1]
  have hs1 : stripPre "(hex)".toList ('(' :: 'h' :: 'e' :: 'x' :: ')' :: ' ' :: nm)
      = some (' ' :: nm) := by
    simp [stripPre]
  simp only [hs1]
  rw [if_pos ⟨by decide, by rw [goodText_dropWs nm hn]; exact goodText_ne_nil nm hn⟩]
  rw [goodText_dropWs nm hn]
  rfl

theorem base16Match_renderB16 (h6 : Hex6) (nm : List Char)
    (hh : h6.good = true) (hn : goodText nm = true) :
    base16MatchL (h6.compact ++ " (base 16) ".toList ++ nm)
      = some (h6.compact, nm) := by
  have hx : [h6.a, h6.b, h6.c, h6.d, h6.e, h6.f].all isHexUp = true := hh
  simp only [List.all_cons, List.all_nil, Bool.and_eq_true, and_true] at hx
  obtain ⟨ha, hb, hc, hd, he, hf⟩ := hx
  show base16MatchL (h6.a :: h6.b :: h6.c :: h6.d :: h6.e :: h6.f ::
    (' ' :: '(' :: 'b' :: 'a' :: 's' :: 'e' :: ' ' :: '1' :: '6' :: ')' :: ' ' :: nm))
    = some (h6.compact, nm)
  simp only [base16MatchL]
  rw [if_pos ⟨ha, hb, hc, hd, he, hf⟩]
  have hd1 : dropWs (' ' :: '(' :: 'b' :: 'a' :: 's' :: 'e' :: ' ' :: '1' :: '6' :: ')' :: ' ' :: nm)
      = '(' :: 'b' :: 'a' :: 's' :: 'e' :: ' ' :: '1' :: '6' :: ')' :: ' ' :: nm := by
    rw [dropWs]
    rw [if_pos (by decide)]
    rw [dropWs]
    rw [if_neg (by decide)]
  rw [hd1]
  have hs1 : stripPre "(base 16)".toList
      ('(' :: 'b' :: 'a' :: 's' :: 'e' :: ' ' :: '1' :: '6' :: ')' :: ' ' :: nm)
      = some (' ' :: nm) := by
    simp [stripPre]
  simp only [hs1]
  rw [if_pos ⟨by decide, by rw [goodText_dropWs nm hn]; exact goodText_ne_nil nm hn⟩]
  rw [goodText_dropWs nm hn]
  rfl

theorem ouiMatch_renderB16_none (h6 : Hex6) (nm : List Char)
    (hh : h6.good = true) :
    ouiMatchL (h6.compact ++ " (base 16) ".toList ++ nm) = none := by
  have hx : [h6.a, h6.b, h6.c, h6.d, h6.e, h6.f].all isHexUp = true := hh
  simp only [List.all_cons, List.all_nil, Bool.and_eq_true, and_true] at hx
  show ouiMatchL (h6.a :: h6.b :: h6.c :: h6.d :: h6.e :: h6.f ::
    (' ' :: '(' :: 'b' :: 'a' :: 's' :: 'e' :: ' ' :: '1' :: '6' :: ')' :: ' ' :: nm)) = none
  simp only [ouiMatchL]
  rw [if_neg]
  rintro ⟨-, -, hcd, -⟩
  have := hx.2.2.1
  rw [hcd] at this
  exact absurd this (by decide)

def addrJoin (cur : List Char) : List (List Char) → List Char
  | [] => cur
  | l :: ls => addrJoin (if cur ≠ [] then cur ++ ' ' :: l else l) ls

def sj2 : List (List Char) → List Char
  | [] => []
  | l :: ls => (' ' :: l) ++ sj2 ls

theorem addrJoin_nonempty (ls : List (List Char)) (a : List Char) (ha : a ≠ []) :
    addrJoin a ls = a ++ sj2 ls := by
  induction ls generalizing a with
  | nil => simp [addrJoin, sj2]
  | cons l ls' ih =>
    rw [addrJoin]
    rw [if_pos ha]
    rw [ih _ (by simp [ha])]
    simp [sj2]

theorem spaceJoin_eq_sj2 (l : List Char) (ls : List (List Char)) :
    spaceJoin (l :: ls) = l ++ sj2 ls := by
  induction ls generalizing l with
  | nil => simp [spaceJoin, sj2]
  | cons l2 ls2 ih =>
    rw [spaceJoin]
    · rw [ih l2]
      simp [sj2]
    · exact fun hc => List.noConfusion hc

theorem addrJoin_nil_spaceJoin (ls : List (List Char))
    (hls : ∀ x ∈ ls, x ≠ []) : addrJoin [] ls = spaceJoin ls := by
  cases ls with
  | nil => rfl
  | cons l ls' =>
    rw [addrJoin]
    rw [if_neg (by simp)]
    rw [addrJoin_nonempty ls' l (hls l (by simp))]
    rw [spaceJoin_eq_sj2]

theorem isAddrText_props (l : List Char) (h : isAddrText l = true) :
    pyStrip l = l ∧ l ≠ [] ∧ l.head? ≠ some '#' ∧
    ouiMatchL l = none ∧ base16MatchL l = none := by
  simp only [isAddrText, Bool.and_eq_true, decide_eq_true_eq,
    Option.isNone_iff_eq_none] at h
  obtain ⟨⟨⟨hg, hh⟩, ho⟩, hb⟩ := h
  simp only [goodText, Bool.and_eq_true] at hg
  exact ⟨pyStrip_id l hg.1.1 hg.1.2, headNotWs_ne_nil l hg.1.1, hh, ho, hb⟩

theorem foldl_addr (addr : List (List Char)) (r : RawRec) (acc : List RawRec)
    (haddr : addr.all isAddrText = true) :
    List.foldl stepLine { cur := some r, acc := acc } addr
    = { cur := some { r with
          company_address := addrJoin r.company_address addr },
        acc := acc } := by
  induction addr generalizing r with
  | nil => simp [addrJoin]
  | cons l ls ih =>
    simp only [List.all_cons, Bool.and_eq_true] at haddr
    obtain ⟨hs, hne, hh, ho, hb⟩ := isAddrText_props l haddr.1
    rw [List.foldl_cons]
    rw [stepLine_addr _ l hs hne hh ho hb]
    simp only []
    rw [ih _ haddr.2]
    rw [addrJoin]

theorem goodText_strip (n : List Char) (h : goodText n = true) :
    pyStrip n = n := by
  simp only [goodText, Bool.and_eq_true] at h
  exact pyStrip_id _ h.1.1 h.1.2

theorem goodText_last (n : List Char) (h : goodText n = true) :
    lastNotWs n = true := by
  simp only [goodText, Bool.and_eq_true] at h
  exact h.1.2

theorem hex6_a (h6 : Hex6) (hh : h6.good = true) : isHexAny h6.a = true := by
  simp only [Hex6.good, List.all_cons, Bool.and_eq_true] at hh
  simp [isHexAny, hh.1]

theorem foldl_renderBlock (b : OuiBlock) (st : PState) (hb : b.good = true) :
    List.foldl stepLine st (renderBlock b)
    = { cur := some (rawOf b), acc := st.acc ++ flushOpt st.cur } := by
  simp only [OuiBlock.good, Bool.and_eq_true] at hb
  obtain ⟨⟨⟨hhx, hhn⟩, hb16⟩, haddr⟩ := hb
  have haddr' : ∀ x ∈ b.addr, x ≠ [] := by
    intro x hx
    rw [List.all_eq_true] at haddr
    have := isAddrText_props x (haddr x hx)
    exact this.2.1
  have hsH : pyStrip (b.hx.dashed ++ " (hex) ".toList ++ b.hexName)
      = b.hx.dashed ++ " (hex) ".toList ++ b.hexName :=
    pyStrip_id _
      (by simp [headNotWs, Hex6.dashed, List.cons_append,
        not_ws_of_hexAny _ (hex6_a b.hx hhx)])
      (lastNotWs_append _ _ (goodText_last _ hhn))
  have hneH : b.hx.dashed ++ " (hex) ".toList ++ b.hexName ≠ [] := by
    simp [Hex6.dashed]
  have hhashH : (b.hx.dashed ++ " (hex) ".toList ++ b.hexName).head? ≠ some '#' := by
    simp [Hex6.dashed, List.cons_append]
    exact hexAny_ne_hash _ (hex6_a b.hx hhx)
  rw [renderBlock]
  rw [List.foldl_cons]
  rw [stepLine_hexline st _ (b.hx.dashed, b.hexName) hsH hneH hhashH
    (ouiMatch_renderHex b.hx b.hexName hhx hhn)]
  rcases hbb : b.b16 with _ | ⟨h6₂, nm₂⟩
  · simp only [List.nil_append]
    rw [goodText_strip _ hhn]
    rw [foldl_addr b.addr _ _ haddr]
    rw [rawOf]
    rw [hbb]
    simp only []
    rw [addrJoin_nil_spaceJoin _ haddr']
    simp
  · simp only [List.cons_append, List.nil_append]
    rw [goodText_strip _ hhn]
    rw [hbb] at hb16
    simp only [Bool.and_eq_true] at hb16
    have hsB : pyStrip (h6₂.compact ++ " (base 16) ".toList ++ nm₂)
        = h6₂.compact ++ " (base 16) ".toList ++ nm₂ :=
      pyStrip_id _
        (by simp [headNotWs, Hex6.compact, List.cons_append,
          not_ws_of_hexAny _ (hex6_a h6₂ hb16.1)])
        (lastNotWs_append _ _ (goodText_last _ hb16.2))
    have hneB : h6₂.compact ++ " (base 16) ".toList ++ nm₂ ≠ [] := by
      simp [Hex6.compact]
    have hhashB : (h6₂.compact ++ " (base 16) ".toList ++ nm₂).head? ≠ some '#' := by
      simp [Hex6.compact, List.cons_append]
      exact hexAny_ne_hash _ (hex6_a h6₂ hb16.1)
    rw [List.foldl_cons]
    rw [stepLine_b16line _ _ (h6₂.compact, nm₂) hsB hneB hhashB
      (ouiMatch_renderB16_none h6₂ nm₂ hb16.1)
      (base16Match_renderB16 h6₂ nm₂ hb16.1 hb16.2)]
    simp only []
    rw [goodText_strip _ hb16.2]
    rw [foldl_addr b.addr _ _ haddr]
    rw [rawOf]
    rw [hbb]
    simp only [Option.map_some]
    rw [addrJoin_nil_spaceJoin _ haddr']
    simp

theorem foldl_linesOf (blocks : List OuiBlock) (st : PState)
    (hg : ∀ b ∈ blocks, b.good = true) :
    (List.foldl stepLine st (linesOf blocks)).acc ++
      flushOpt (List.foldl stepLine st (linesOf blocks)).cur
    = (st.acc ++ flushOpt st.cur) ++ blocks.map rawOf := by
  induction blocks generalizing st with
  | nil => simp [linesOf]
  | cons b bs ih =>
    cases bs with
    | nil =>
      simp only [linesOf]
      rw [foldl_renderBlock b st (hg b (by simp))]
      simp [flushOpt]
    | cons b2 bs2 =>
      simp only [linesOf]
      rw [List.foldl_append]
      rw [foldl_renderBlock b st (hg b (by simp))]
      rw [List.foldl_cons]
      rw [stepLine_blank]
      rw [ih _ (fun x hx => hg x (by simp [hx]))]
      simp [flushOpt, List.append_assoc]

theorem cleanRec_rawOf (b : OuiBlock) (hb : b.good = true) :
    cleanRec (rawOf b) = some (blockRecord b) := by
  simp only [OuiBlock.good, Bool.and_eq_true] at hb
  obtain ⟨⟨⟨hhx, hhn⟩, hb16⟩, haddr⟩ := hb
  rcases hbb : b.b16 with _ | ⟨h6₂, nm₂⟩
  · unfold cleanRec rawOf blockRecord
    rw [hbb]
    simp only [Option.map_none]
    rw [if_pos ⟨by simp [Hex6.dashed], goodText_ne_nil _ hhn⟩]
    simp
  · rw [hbb] at hb16
    simp only [Bool.and_eq_true] at hb16
    unfold cleanRec rawOf blockRecord
    rw [hbb]
    simp only [Option.map_some]
    have hname2 : (if nm₂.length > b.hexName.length then nm₂ else b.hexName) ≠ [] := by
      by_cases hlen : nm₂.length > b.hexName.length
      · simp only [if_pos hlen]
        exact goodText_ne_nil _ hb16.2
      · simp only [if_neg hlen]
        exact goodText_ne_nil _ hhn
    rw [if_pos ⟨by simp [Hex6.dashed], hname2⟩]
    simp [Hex6.compact]

theorem noNl_append2 (l₁ l₂ : List Char) (h1 : noNl l₁ = true)
    (h2 : noNl l₂ = true) : noNl (l₁ ++ l₂) = true := by
  simp only [noNl, List.all_append, Bool.and_eq_true]
  exact ⟨h1, h2⟩

theorem goodText_noNl (n : List Char) (h : goodText n = true) :
    noNl n = true := by
  simp only [goodText, Bool.and_eq_true] at h
  exact h.2

theorem hexUp_ne_nl (c : Char) (h : isHexUp c = true) : ¬(c = '\n') := by
  intro hc
  subst hc
  exact absurd h (by decide)

theorem noNl_dashed (h6 : Hex6) (hh : h6.good = true) :
    noNl h6.dashed = true := by
  simp only [Hex6.good, List.all_cons, List.all_nil, Bool.and_eq_true, and_true] at hh
  obtain ⟨ha, hb, hc, hd, he, hf⟩ := hh
  simp [noNl, Hex6.dashed, hexUp_ne_nl _ ha, hexUp_ne_nl _ hb, hexUp_ne_nl _ hc,
    hexUp_ne_nl _ hd, hexUp_ne_nl _ he, hexUp_ne_nl _ hf]

theorem noNl_compact (h6 : Hex6) (hh : h6.good = true) :
    noNl h6.compact = true := by
  simp only [Hex6.good, List.all_cons, List.all_nil, Bool.and_eq_true, and_true] at hh
  obtain ⟨ha, hb, hc, hd, he, hf⟩ := hh
  simp [noNl, Hex6.compact, hexUp_ne_nl _ ha, hexUp_ne_nl _ hb, hexUp_ne_nl _ hc,
    hexUp_ne_nl _ hd, hexUp_ne_nl _ he, hexUp_ne_nl _ hf]

theorem renderBlock_noNl (b : OuiBlock) (hb : b.good = true) :
    ∀ l ∈ renderBlock b, noNl l = true := by
  simp only [OuiBlock.good, Bool.and_eq_true] at hb
  obtain ⟨⟨⟨hhx, hhn⟩, hb16⟩, haddr⟩ := hb
  intro l hl
  rw [renderBlock] at hl
  rcases List.mem_cons.mp hl with rfl | hl2
  · exact noNl_append2 _ _ (noNl_append2 _ _ (noNl_dashed _ hhx) (by decide))
      (goodText_noNl _ hhn)
  · rcases List.mem_append.mp hl2 with hl3 | hl3
    · rcases hbb : b.b16 with _ | ⟨h6₂, nm₂⟩
      · rw [hbb] at hl3
        simp at hl3
      · rw [hbb] at hl3
        rw [hbb] at hb16
        simp only [Bool.and_eq_true] at hb16
        simp only [List.mem_singleton] at hl3
        subst hl3
        exact noNl_append2 _ _ (noNl_append2 _ _ (noNl_compact _ hb16.1) (by decide))
          (goodText_noNl _ hb16.2)
    · rw [List.all_eq_true] at haddr
      have := haddr l hl3
      simp only [isAddrText, Bool.and_eq_true] at this
      exact goodText_noNl _ this.1.1.1

theorem linesOf_noNl (blocks : List OuiBlock)
    (hg : ∀ b ∈ blocks, b.good = true) :
    ∀ l ∈ linesOf blocks, noNl l = true := by
  induction blocks with
  | nil => simp [linesOf]
  | cons b bs ih =>
    cases bs with
    | nil =>
      simp only [linesOf]
      exact renderBlock_noNl b (hg b (by simp))
    | cons b2 bs2 =>
      simp only [linesOf]
      intro l hl
      rcases List.mem_append.mp hl with h1 | h1
      · exact renderBlock_noNl b (hg b (by simp)) l h1
      · rcases List.mem_cons.mp h1 with rfl | h2
        · decide
        · exact ih (fun x hx => hg x (by simp [hx])) l h2

theorem linesOf_ne_nil (b : OuiBlock) (bs : List OuiBlock) :
    linesOf (b :: bs) ≠ [] := by
  cases bs <;> simp [linesOf, renderBlock]

theorem filterMap_cleanRec (blocks : List OuiBlock)
    (hg : ∀ b ∈ blocks, b.good = true) :
    List.filterMap cleanRec (blocks.map rawOf) = blocks.map blockRecord := by
  induction blocks with
  | nil => rfl
  | cons b bs ih =>
    simp only [List.map_cons, List.filterMap_cons]
    rw [cleanRec_rawOf b (hg b (by simp))]
    rw [ih (fun x hx => hg x (by simp [hx]))]

/-- C3 (amended): for every synthetic registry text of N well-formed blocks
(hex line, optional base-16 line, address continuation lines, blocks
separated by blank lines), `_parse_oui_content` returns exactly N records in
input order; each record's `prefix` comes from the hex line, `prefix_hex`
from the base-16 line (or, when that line is absent, is derived by stripping
dashes from the prefix), `vendor_name` is the base-16 line's name when it is
strictly longer than the hex line's name and otherwise the hex line's name —
truncated to 255 characters — and `vendor_address` is the space-join of the
continuation lines truncated to 500 characters. -/
theorem c3_parse_well_formed_blocks (blocks : List OuiBlock)
    (hg : ∀ b ∈ blocks, b.good = true) :
    OUICache.parse_oui_content (renderRegistry blocks)
      = blocks.map blockRecord ∧
    (OUICache.parse_oui_content (renderRegistry blocks)).length
      = blocks.length := by
  have hmain : OUICache.parse_oui_content (renderRegistry blocks)
      = blocks.map blockRecord := by
    cases blocks with
    | nil => decide
    | cons b bs =>
      have hsplit : splitNl (renderRegistry (b :: bs)).toList = linesOf (b :: bs) := by
        show splitNl (joinNl (linesOf (b :: bs))) = _
        exact splitNl_joinNl _ (linesOf_ne_nil b bs) (linesOf_noNl _ hg)
      have hfold := foldl_linesOf (b :: bs) { cur := none, acc := [] } hg
      simp only [OUICache.parse_oui_content]
      rw [hsplit]
      rw [hfold]
      simp only [flushOpt, List.nil_append]
      exact filterMap_cleanRec _ hg
  refine ⟨hmain, ?_⟩
  rw [hmain]
  simp

/-- A 300-character vendor name. -/
def longName : List Char := List.replicate 300 'B'

/-- A 501-character address line. -/
def longAddr : List Char := List.replicate 501 'A'

/-- A single well-formed block carrying the long name and address. -/
def cxBlock : OuiBlock :=
  { hx := ⟨'A', 'A', 'B', 'B', 'C', 'C'⟩,
    hexName := "N".toList,
    b16 := some (⟨'A', 'A', 'B', 'B', 'C', 'C'⟩, longName),
    addr := [longAddr] }

set_option maxRecDepth 100000 in
/-- C3 (counterexample): on a well-formed block whose base-16 name has 300
characters and whose single address line has 501, the parser returns the
name truncated to 255 and the address truncated to 500 — not the full
strings the claim as stated requires (`vendor_name` the longer name,
`vendor_address` the space-join of the continuation lines, with no mention
of truncation). -/
theorem c3_counter_truncation :
    cxBlock.good = true ∧
    (String.mk longName).length = 300 ∧
    (String.mk longAddr).length = 501 ∧
    (OUICache.parse_oui_content (renderRegistry [cxBlock])).map
      (fun r => (r.company_name.length, r.company_address.length)) = [(255, 500)] ∧
    OUICache.parse_oui_content (renderRegistry [cxBlock]) ≠
      [{ oui := "AA-BB-CC", oui_hex := "AABBCC",
         company_name := String.mk longName,
         company_address := String.mk longAddr }] := by decide

/-- Two concrete well-formed blocks: one with a base-16 line (carrying the
longer name) and two address lines, one with neither. -/
def wBlocks : List OuiBlock :=
  [{ hx := ⟨'0', '0', '5', '0', '5', '6'⟩,
     hexName := "VMware, Inc.".toList,
     b16 := some (⟨'0', '0', '5', '0', '5', '6'⟩, "VMware, Inc. Global HQ".toList),
     addr := ["3401 Hillview Avenue".toList, "Palo Alto CA".toList] },
   { hx := ⟨'A', 'A', 'B', 'B', 'C', 'C'⟩,
     hexName := "Acme".toList, b16 := none, addr := [] }]

/-- Witness for the amended C3 on two concrete blocks. -/
theorem c3_parse_well_formed_blocks_witness :
    (∀ b ∈ wBlocks, b.good = true) ∧
    (OUICache.parse_oui_content (renderRegistry wBlocks)
       = wBlocks.map blockRecord ∧
     (OUICache.parse_oui_content (renderRegistry wBlocks)).length
       = wBlocks.length) :=
  ⟨by decide, c3_parse_well_formed_blocks wBlocks (by decide)⟩
